import Mathlib

/-!
# Newton's law of cooling calculator (`script.js`)

A shallow embedding of the computational core of `script.js`:

* `F64` models the JavaScript Number type (IEEE-754 binary64, round to nearest,
  ties to even) with the operators the script uses: unary minus, `+`, `-`, `*`,
  `/`, `<`, `<=`, `isNaN`, `isFinite`, `Math.max` and `Math.exp`.
* `calculateTemperatureAtTime` is the formula of the script, written once and
  generic in the number type, so that it can be read both over `F64` (what the
  script computes) and over `ℝ` (the exact formula the script approximates).
* `getInputValues`, `calculateTemperature`, `samplingLoop` / `generatePlotPoints`
  and `validateInput` follow the functions of the same names.
-/

namespace CoolingModel

/-! ## JavaScript numbers -/

/-- A JavaScript Number. `fin neg m e` is the finite value `(-1)^neg * m * 2^e`;
the values produced by the operations below are canonical: `m < 2^53`,
`-1074 ≤ e ≤ 971` and `2^52 ≤ m` unless `e = -1074`. Zero is `fin neg 0 (-1074)`. -/
inductive F64 where
  | nan : F64
  | inf (neg : Bool) : F64
  | fin (neg : Bool) (m : Nat) (e : Int) : F64
  deriving DecidableEq, Repr

namespace F64

/-- Number of binary digits of `n`, by structural recursion on a fuel; whole
blocks of 64 digits are stripped first to keep the recursion shallow. -/
def bitLenAux : Nat → Nat → Nat
  | 0, _ => 0
  | fuel + 1, n =>
    if n = 0 then 0
    else if 2 ^ 64 ≤ n then bitLenAux fuel (n / 2 ^ 64) + 64
    else bitLenAux fuel (n / 2) + 1

/-- Number of binary digits of `n` (`0` for `0`). -/
def bitLen (n : Nat) : Nat := bitLenAux n n

/-- The integer `floor (log2 (n / d))`, for `n, d > 0`. -/
def floorLog2 (n d : Nat) : Int :=
  let k : Int := (bitLen n : Int) - (bitLen d : Int)
  if d * 2 ^ k.toNat ≤ n * 2 ^ (-k).toNat then k else k - 1

/-- Round `n / d` to an integer multiple of `2^e`, nearest and ties to even, and
renormalise: a significand that reaches `2^53` moves to the next exponent, and
an exponent above `971` is an overflow to infinity. -/
def roundAt (neg : Bool) (n d : Nat) (e : Int) : F64 :=
  let num : Nat := n * 2 ^ (-e).toNat
  let den : Nat := d * 2 ^ e.toNat
  let q : Nat := num / den
  let r : Nat := num % den
  let q1 : Nat := if den < 2 * r ∨ (2 * r = den ∧ q % 2 = 1) then q + 1 else q
  let m : Nat := if q1 = 2 ^ 53 then 2 ^ 52 else q1
  let e1 : Int := if q1 = 2 ^ 53 then e + 1 else e
  if 971 < e1 then inf neg else fin neg m e1

/-- Correctly rounded (nearest, ties to even) binary64 value of the rational
`(-1)^neg * n / d`, for `d > 0`: the exponent is that of a 53-bit significand,
but not below `-1074` (subnormal range). -/
def roundQ (neg : Bool) (n d : Nat) : F64 :=
  if n = 0 then fin neg 0 (-1074)
  else roundAt neg n d (Max.max (floorLog2 n d - 52) (-1074))

/-- The Number value of a natural-number literal. -/
def ofNat (n : Nat) : F64 := roundQ false n 1

/-- The Number value of the decimal literal `n / d`. -/
def ofRatio (neg : Bool) (n d : Nat) : F64 := roundQ neg n d

/-- The literal `0`. -/
def zero : F64 := fin false 0 (-1074)

/-- The literal `1`. -/
def one : F64 := ofNat 1

/-- Signed integer `(-1)^neg * m * 2^k`. -/
def scaled (neg : Bool) (m : Nat) (k : Nat) : Int :=
  if neg then -((m * 2 ^ k : Nat) : Int) else ((m * 2 ^ k : Nat) : Int)

/-- Unary minus. -/
def neg : F64 → F64
  | nan => nan
  | inf s => inf (!s)
  | fin s m e => fin (!s) m e

/-- The operator `+`. -/
def add : F64 → F64 → F64
  | nan, _ => nan
  | inf _, nan => nan
  | inf s, inf t => if s = t then inf s else nan
  | inf s, fin _ _ _ => inf s
  | fin _ _ _, nan => nan
  | fin _ _ _, inf t => inf t
  | fin s1 m1 e1, fin s2 m2 e2 =>
    let e : Int := min e1 e2
    let c : Int := scaled s1 m1 (e1 - e).toNat + scaled s2 m2 (e2 - e).toNat
    if c = 0 then fin (s1 && s2) 0 (-1074)
    else roundQ (decide (c < 0)) (c.natAbs * 2 ^ e.toNat) (2 ^ (-e).toNat)

/-- The operator `-`. -/
def sub (x y : F64) : F64 := add x (neg y)

/-- The operator `*`. -/
def mul : F64 → F64 → F64
  | nan, _ => nan
  | inf _, nan => nan
  | inf s, inf t => inf (xor s t)
  | inf s, fin t m _ => if m = 0 then nan else inf (xor s t)
  | fin _ _ _, nan => nan
  | fin s m _, inf t => if m = 0 then nan else inf (xor s t)
  | fin s1 m1 e1, fin s2 m2 e2 =>
    roundQ (xor s1 s2) (m1 * m2 * 2 ^ (e1 + e2).toNat) (2 ^ (-(e1 + e2)).toNat)

/-- The operator `/`. -/
def div : F64 → F64 → F64
  | nan, _ => nan
  | inf _, nan => nan
  | inf _, inf _ => nan
  | inf s, fin t _ _ => inf (xor s t)
  | fin _ _ _, nan => nan
  | fin s _ _, inf t => fin (xor s t) 0 (-1074)
  | fin s1 m1 e1, fin s2 m2 e2 =>
    if m2 = 0 then (if m1 = 0 then nan else inf (xor s1 s2))
    else roundQ (xor s1 s2) (m1 * 2 ^ (e1 - e2).toNat) (m2 * 2 ^ (e2 - e1).toNat)

/-- The operator `<` (false as soon as one side is NaN). -/
def lt : F64 → F64 → Bool
  | nan, _ => false
  | inf _, nan => false
  | inf s, inf t => s && !t
  | inf s, fin _ _ _ => s
  | fin _ _ _, nan => false
  | fin _ _ _, inf t => !t
  | fin s1 m1 e1, fin s2 m2 e2 =>
    decide (scaled s1 m1 (e1 - min e1 e2).toNat < scaled s2 m2 (e2 - min e1 e2).toNat)

/-- The operator `<=` (false as soon as one side is NaN). -/
def le : F64 → F64 → Bool
  | nan, _ => false
  | inf _, nan => false
  | inf s, inf t => s || !t
  | inf s, fin _ _ _ => s
  | fin _ _ _, nan => false
  | fin _ _ _, inf t => !t
  | fin s1 m1 e1, fin s2 m2 e2 =>
    decide (scaled s1 m1 (e1 - min e1 e2).toNat ≤ scaled s2 m2 (e2 - min e1 e2).toNat)

/-- The global function `isNaN` on a Number. -/
def isNaN : F64 → Bool
  | nan => true
  | _ => false

/-- The global function `isFinite` on a Number. -/
def isFinite : F64 → Bool
  | fin _ _ _ => true
  | _ => false

/-- The function `Math.abs`. -/
def abs : F64 → F64
  | nan => nan
  | inf _ => inf false
  | fin _ m e => fin false m e

/-- The function `Math.max` on two arguments: NaN if either is NaN, and `+0` is
larger than `-0`. -/
def max (a b : F64) : F64 :=
  if isNaN a || isNaN b then nan
  else if lt a b then b
  else if lt b a then a
  else match a with
    | fin true _ _ => b
    | _ => a

/-- The function `Math.exp`. ECMAScript fixes its value at NaN, at the two zeros
and at the two infinities; elsewhere the result is implementation-approximated,
which is the parameter `approx`. -/
def exp (approx : F64 → F64) : F64 → F64
  | nan => nan
  | inf false => inf false
  | inf true => fin false 0 (-1074)
  | fin s m e => if m = 0 then one else approx (fin s m e)

instance : Neg F64 := ⟨neg⟩
instance : Add F64 := ⟨add⟩
instance : Sub F64 := ⟨sub⟩
instance : Mul F64 := ⟨mul⟩
instance : Div F64 := ⟨div⟩

end F64

open F64

/-! ## The cooling formula -/

/-- The function `calculateTemperatureAtTime(t0, tenv, k, t)`:
`return tenv + (t0 - tenv) * Math.exp(-k * t);`
The number type and its `exp` are parameters: `F64` with `F64.exp approx` is the
script, `ℝ` with `Real.exp` is the exact formula. -/
def calculateTemperatureAtTime {α : Type} [Neg α] [Add α] [Sub α] [Mul α]
    (exp : α → α) (t0 tenv k t : α) : α :=
  tenv + (t0 - tenv) * exp (-k * t)

/-! ## Validation -/

/-- The object `{ t0, tenv, k, t }` returned under `values`. -/
structure Values where
  t0 : F64
  tenv : F64
  k : F64
  t : F64

/-- The object `{ values, errors }` returned by `getInputValues`. -/
structure ValidationResult where
  values : Values
  errors : List String

/-- Message pushed when `t0` fails. -/
def msgT0 : String := "Initial temperature (T₀) must be a valid number"

/-- Message pushed when `tenv` fails. -/
def msgTenv : String := "Ambient temperature (T_env) must be a valid number"

/-- Message pushed when `k` fails. -/
def msgK : String := "Cooling constant (k) must be a positive number"

/-- Message pushed when `t` fails. -/
def msgT : String := "Time (t) must be a non-negative number"

/-- The function `getInputValues()`. The arguments are the values of the four
`parseFloat(document.getElementById(id).value)` calls that open the function;
`errors.push` appends at the end. -/
def getInputValues (t0 tenv k t : F64) : ValidationResult :=
  let errors : List String := []
  let errors := if isNaN t0 then errors ++ [msgT0] else errors
  let errors := if isNaN tenv then errors ++ [msgTenv] else errors
  let errors := if isNaN k || le k zero then errors ++ [msgK] else errors
  let errors := if isNaN t || lt t zero then errors ++ [msgT] else errors
  { values := { t0 := t0, tenv := tenv, k := k, t := t }, errors := errors }

/-! ## The calculation flow -/

/-- What `calculateTemperature` shows: a call of `displayError(message)` or a
call of `displayResult(temperature, time)`. -/
inductive Display where
  | displayError (message : String) : Display
  | displayResult (temperature : F64) (time : F64) : Display
  deriving DecidableEq

/-- The message shown when the computed temperature is not finite. -/
def msgInvalid : String :=
  "Calculation resulted in an invalid value. Please check your inputs."

/-- The function `calculateTemperature()`. The arithmetic of the `try` block cannot throw, so
the `catch` branch is unreachable and is left out. -/
def calculateTemperature (approx : F64 → F64) (t0 tenv k t : F64) : Display :=
  let r := getInputValues t0 tenv k t
  if r.errors.length > 0 then
    Display.displayError (String.intercalate ". " r.errors)
  else
    let temperature := calculateTemperatureAtTime (F64.exp approx)
      r.values.t0 r.values.tenv r.values.k r.values.t
    if !isFinite temperature then Display.displayError msgInvalid
    else Display.displayResult temperature r.values.t

/-! ## Plot sampling -/

/-- An element `{ x: time, y: temperature }` of `dataPoints`. -/
structure SamplePoint where
  x : F64
  y : F64

/-- The loop `for (let time = 0; time <= maxTime; time += timeStep)` of
`generatePlot`, started at `time` with `dataPoints = acc`. Each iteration costs
one unit of fuel; `none` means the fuel ran out before the loop ended. -/
def samplingLoop (approx : F64 → F64) (t0 tenv k maxTime timeStep : F64) :
    Nat → F64 → List SamplePoint → Option (List SamplePoint)
  | 0, _, _ => none
  | fuel + 1, time, acc =>
    if le time maxTime then
      samplingLoop approx t0 tenv k maxTime timeStep fuel (time + timeStep)
        (acc ++ [{ x := time,
                   y := calculateTemperatureAtTime (F64.exp approx) t0 tenv k time }])
    else some acc

/-- The horizon `Math.max(100, t * 2)`. -/
def plotMaxTime (t : F64) : F64 := F64.max (ofNat 100) (t * ofNat 2)

/-- The step `maxTime / 100`. -/
def plotTimeStep (t : F64) : F64 := plotMaxTime t / ofNat 100

/-- The data points built by `generatePlot` for validated values. -/
def generatePlotPoints (approx : F64 → F64) (fuel : Nat) (v : Values) :
    Option (List SamplePoint) :=
  samplingLoop approx v.t0 v.tenv v.k (plotMaxTime v.t) (plotTimeStep v.t) fuel zero []

/-- What `generatePlot` hands over: a call of `displayError`, or the three data
series of the chart. -/
inductive PlotDisplay where
  | displayError (message : String) : PlotDisplay
  | chart (dataPoints : List SamplePoint) (specific : SamplePoint)
      (ambient : List SamplePoint) : PlotDisplay

/-- The function `generatePlot()` up to the construction of the chart data; `none` when the
sampling loop does not finish within `fuel` iterations. -/
def generatePlot (approx : F64 → F64) (fuel : Nat) (t0 tenv k t : F64) :
    Option PlotDisplay :=
  let r := getInputValues t0 tenv k t
  if r.errors.length > 0 then
    some (PlotDisplay.displayError (String.intercalate ". " r.errors))
  else
    match generatePlotPoints approx fuel r.values with
    | none => none
    | some dataPoints =>
      let specificTemp := calculateTemperatureAtTime (F64.exp approx)
        r.values.t0 r.values.tenv r.values.k r.values.t
      some (PlotDisplay.chart dataPoints { x := r.values.t, y := specificTemp }
        [{ x := zero, y := r.values.tenv },
         { x := plotMaxTime r.values.t, y := r.values.tenv }])

/-! ## Per-field feedback -/

/-- An `<input>` element: its `id`, its `value` and its `classList`. -/
structure InputField where
  id : String
  value : String
  classList : List String

/-- The method `classList.remove(...tokens)`. -/
def classListRemove (l : List String) (tokens : List String) : List String :=
  l.filter (fun c => decide (c ∉ tokens))

/-- The method `classList.add(token)`. -/
def classListAdd (l : List String) (token : String) : List String :=
  if token ∈ l then l else l ++ [token]

/-- The function `validateInput(input)`, returning the element with its new `classList`;
`parseFloat` is the JavaScript builtin, a parameter. -/
def validateInput (parseFloat : String → F64) (input : InputField) : InputField :=
  let value := parseFloat input.value
  let id := input.id
  let input := { input with classList := classListRemove input.classList ["valid", "invalid"] }
  if input.value = "" then input
  else
    let isValid := true
    let isValid :=
      if id = "t0" ∨ id = "tenv" ∨ id = "t" then
        let isValid := !isNaN value
        if id = "t" ∧ lt value zero = true then false else isValid
      else if id = "k" then !isNaN value && lt zero value
      else isValid
    if isValid then { input with classList := classListAdd input.classList "valid" }
    else { input with classList := classListAdd input.classList "invalid" }

/-! ## Auxiliary definitions for the proofs -/

/-- The largest finite Number, `Number.MAX_VALUE = 1.7976931348623157e308`. -/
def maxValue : F64 := fin false (2 ^ 53 - 1) 971

/-- The successive values of the loop variable `time` in the sampling loop. -/
def sampleTimes (maxTime timeStep : F64) : Nat → F64 → List F64 → Option (List F64)
  | 0, _, _ => none
  | fuel + 1, time, acc =>
    if le time maxTime then sampleTimes maxTime timeStep fuel (time + timeStep) (acc ++ [time])
    else some acc

/-- The sample point the loop pushes at `time`. -/
def samplePointAt (approx : F64 → F64) (t0 tenv k time : F64) : SamplePoint :=
  { x := time, y := calculateTemperatureAtTime (F64.exp approx) t0 tenv k time }

namespace F64

/-- The quotient `X / D` rounded to the nearest integer, ties to even. -/
def rne (X D : Nat) : Nat :=
  if D < 2 * (X % D) ∨ (2 * (X % D) = D ∧ X / D % 2 = 1) then X / D + 1 else X / D

/-- The exponent of the grid on which `n / d` is rounded. -/
def rexp (n d : Nat) : Int := Max.max (floorLog2 n d - 52) (-1074)

/-- The significand of `n / d` rounded on its grid, before renormalisation. -/
def rquo (n d : Nat) : Nat :=
  rne (n * 2 ^ (-(rexp n d)).toNat) (d * 2 ^ (rexp n d).toNat)

/-- The rational value of `n / d` rounded on its grid. -/
def rval (n d : Nat) : ℚ := (rquo n d : ℚ) * (2 : ℚ) ^ (rexp n d)

/-- The rational value of a finite Number (`0` for NaN and the infinities). -/
def val : F64 → ℚ
  | fin s m e => (if s then -1 else 1) * (m : ℚ) * (2 : ℚ) ^ e
  | _ => 0

/-- The signed rational `(-1)^s * n / d`. -/
def sval (s : Bool) (n d : Nat) : ℚ := (if s then -1 else 1) * (n : ℚ) / (d : ℚ)

/-- A finite Number in canonical form, that is a double: a significand below
`2^53`, an exponent in `[-1074, 971]`, normalised unless subnormal. Every finite
JavaScript Number is one, and so is every finite result of the rounding `roundQ`
(theorem `F64.isDouble_roundQ`); the type `F64` also has terms `fin neg m e` that
are not in this form, which no operation produces. -/
def isDouble : F64 → Bool
  | fin _ m e => decide (m < 2 ^ 53) && decide (-1074 ≤ e) && decide (e ≤ 971)
      && (decide (2 ^ 52 ≤ m) || decide (e = -1074))
  | _ => false

end F64

/-- A sample behaviour of the approximated part of `Math.exp`, used at concrete
instances: a monotone step function with values in `[0, 1]`, `0.25` up to `-1`
and `0.5` above. -/
def sampleApprox (x : F64) : F64 :=
  if le x (-(ofNat 1)) = true then ofRatio false 1 4 else ofRatio false 1 2

set_option exponentiation.threshold 5000
set_option maxRecDepth 20000

/-! ## Checks of the number model -/

/-- The model reproduces `0.1 + 0.2 = 0.30000000000000004`. -/
theorem F64.tenth_add_fifth :
    ofRatio false 1 10 + ofRatio false 2 10 = fin false 5404319552844596 (-54)
    ∧ ofRatio false 3 10 = fin false 5404319552844595 (-54) := by
  decide

/-- The model reproduces `1.1 * 1.1 = 1.2100000000000002` and `1 / 3`. -/
theorem F64.mul_div_samples :
    ofRatio false 11 10 * ofRatio false 11 10 = fin false 5449355549118301 (-52)
    ∧ ofNat 1 / ofNat 3 = fin false 6004799503160661 (-54) := by
  decide

/-- Overflow, underflow and the special values behave as in IEEE-754. -/
theorem F64.special_samples :
    maxValue + maxValue = inf false
    ∧ maxValue + ofNat 1 = maxValue
    ∧ fin false 1 (-1074) / ofNat 2 = zero
    ∧ fin false 3 (-1074) / ofNat 2 = fin false 2 (-1074)
    ∧ inf false - inf false = nan
    ∧ zero * inf false = nan
    ∧ ofNat 1 / zero = inf false
    ∧ zero / zero = nan
    ∧ le nan nan = false
    ∧ le (-zero) zero = true
    ∧ lt (-zero) zero = false
    ∧ F64.max (-zero) zero = zero := by
  decide

/-! ## Rounding lemmas -/

/-- The bit length of `0` is `0`. -/
theorem F64.bitLenAux_zero (fuel : Nat) : bitLenAux fuel 0 = 0 := by
  cases fuel <;> simp [bitLenAux]

/-- With enough fuel, `bitLenAux` returns `b + 1` with `2^b ≤ n < 2^(b+1)`. -/
theorem F64.bitLenAux_spec : ∀ (fuel n : Nat), n ≤ fuel → n ≠ 0 →
    ∃ b, bitLenAux fuel n = b + 1 ∧ 2 ^ b ≤ n ∧ n < 2 ^ (b + 1) := by
  intro fuel
  induction fuel with
  | zero => intro n h hn; omega
  | succ f ih =>
    intro n h hn
    have h64 : (2 : Nat) ^ 64 = 18446744073709551616 := by norm_num
    simp only [bitLenAux, if_neg hn]
    by_cases hbig : 2 ^ 64 ≤ n
    · simp only [if_pos hbig]
      have hne : n / 2 ^ 64 ≠ 0 := by
        rw [h64] at hbig ⊢; omega
      have hle : n / 2 ^ 64 ≤ f := by
        rw [h64] at hbig ⊢; omega
      obtain ⟨b, hb, h1, h2⟩ := ih (n / 2 ^ 64) hle hne
      refine ⟨b + 64, by rw [hb], ?_, ?_⟩
      · rw [pow_add, h64]; rw [h64] at h1; omega
      · rw [show b + 64 + 1 = (b + 1) + 64 by omega, pow_add, h64]; rw [h64] at h2; omega
    · simp only [if_neg hbig]
      by_cases h1 : n = 1
      · subst h1
        refine ⟨0, ?_, by norm_num, by norm_num⟩
        simp [F64.bitLenAux_zero]
      · have hne : n / 2 ≠ 0 := by omega
        have hle : n / 2 ≤ f := by omega
        obtain ⟨b, hb, h1, h2⟩ := ih (n / 2) hle hne
        refine ⟨b + 1, by rw [hb], ?_, ?_⟩
        · rw [pow_succ]; omega
        · rw [pow_succ] at h2 ⊢; omega

/-- For `n > 0`, `bitLen n = b + 1` with `2^b ≤ n < 2^(b+1)`. -/
theorem F64.bitLen_spec (n : Nat) (hn : n ≠ 0) :
    ∃ b, bitLen n = b + 1 ∧ 2 ^ b ≤ n ∧ n < 2 ^ (b + 1) :=
  F64.bitLenAux_spec n n (le_refl n) hn

/-- If `n / d < 2^c` then `floorLog2 n d ≤ c`. -/
theorem F64.floorLog2_le (n d : Nat) (c : Nat) (hn : n ≠ 0) (hd : d ≠ 0)
    (h : n < 2 ^ c * d) : floorLog2 n d ≤ c := by
  obtain ⟨bn, hbn, hn1, hn2⟩ := F64.bitLen_spec n hn
  obtain ⟨bd, hbd, hd1, hd2⟩ := F64.bitLen_spec d hd
  have hb : bn ≤ bd + c := by
    by_contra hc
    push_neg at hc
    have h1 : 2 ^ (bd + c + 1) ≤ 2 ^ bn := Nat.pow_le_pow_right (by norm_num) hc
    have h2 : 2 ^ c * d < 2 ^ c * 2 ^ (bd + 1) :=
      Nat.mul_lt_mul_of_pos_left hd2 (by positivity)
    have h3 : 2 ^ c * 2 ^ (bd + 1) = 2 ^ (bd + c + 1) := by
      rw [← pow_add]; congr 1; omega
    omega
  simp only [floorLog2, hbn, hbd]
  split_ifs <;> push_cast <;> omega

/-- Rounding on a grid `2^(-a)` does not cross an integer bound `c`: if
`n / d ≤ c` then the rounded significand `m` at exponent `e1` has
`m * 2^e1 ≤ c`, here stated after scaling by `2^1074`. -/
theorem F64.roundAt_le (s : Bool) (n d c a : Nat) (hd : 0 < d) (h : n ≤ c * d)
    (ha : a ≤ 1074) :
    ∃ m e1, roundAt s n d (-(a : Int)) = fin s m e1
      ∧ -1074 ≤ e1 ∧ e1 ≤ -(a : Int) + 1
      ∧ m * 2 ^ (e1 + 1074).toNat ≤ c * 2 ^ 1074 := by
  have hnum : n * 2 ^ a ≤ d * (c * 2 ^ a) := by
    calc n * 2 ^ a ≤ (c * d) * 2 ^ a := Nat.mul_le_mul_right _ h
      _ = d * (c * 2 ^ a) := by ring
  have hq : n * 2 ^ a / d ≤ c * 2 ^ a := by
    apply Nat.div_le_of_le_mul hnum
  have hdm := Nat.div_add_mod (n * 2 ^ a) d
  have hr : n * 2 ^ a / d = c * 2 ^ a → n * 2 ^ a % d = 0 := by
    intro hqe
    rw [hqe] at hdm
    omega
  have hq1 : (if d < 2 * (n * 2 ^ a % d) ∨
      (2 * (n * 2 ^ a % d) = d ∧ n * 2 ^ a / d % 2 = 1) then n * 2 ^ a / d + 1
      else n * 2 ^ a / d) ≤ c * 2 ^ a := by
    split_ifs with hc
    · rcases Nat.lt_or_ge (n * 2 ^ a / d) (c * 2 ^ a) with hlt | hge
      · omega
      · have := hr (le_antisymm hq hge)
        rw [this] at hc
        omega
    · exact hq
  have e1 : (-(-(a : Int))).toNat = a := by simp
  have e2 : (-(a : Int)).toNat = 0 := by simp
  simp only [roundAt, e1, e2, pow_zero, mul_one]
  generalize (if d < 2 * (n * 2 ^ a % d) ∨
      (2 * (n * 2 ^ a % d) = d ∧ n * 2 ^ a / d % 2 = 1) then n * 2 ^ a / d + 1
      else n * 2 ^ a / d) = q1 at hq1 ⊢
  have hpow : (2 : Nat) ^ a * 2 ^ (1074 - a) = 2 ^ 1074 := by
    rw [← pow_add]; congr 1; omega
  by_cases hc : q1 = 2 ^ 53
  · simp only [if_pos hc]
    have h971 : ¬ (971 : Int) < -(a : Int) + 1 := by omega
    rw [if_neg h971]
    refine ⟨2 ^ 52, -(a : Int) + 1, rfl, by omega, le_refl _, ?_⟩
    have ht : (-(a : Int) + 1 + 1074).toNat = (1074 - a) + 1 := by omega
    rw [ht, pow_succ]
    calc 2 ^ 52 * (2 ^ (1074 - a) * 2) = q1 * 2 ^ (1074 - a) := by rw [hc]; ring
      _ ≤ (c * 2 ^ a) * 2 ^ (1074 - a) := Nat.mul_le_mul_right _ hq1
      _ = c * 2 ^ 1074 := by rw [mul_assoc, hpow]
  · simp only [if_neg hc]
    have h971 : ¬ (971 : Int) < -(a : Int) := by omega
    rw [if_neg h971]
    refine ⟨q1, -(a : Int), rfl, by omega, by omega, ?_⟩
    have ht : (-(a : Int) + 1074).toNat = 1074 - a := by omega
    rw [ht]
    calc q1 * 2 ^ (1074 - a) ≤ (c * 2 ^ a) * 2 ^ (1074 - a) := Nat.mul_le_mul_right _ hq1
      _ = c * 2 ^ 1074 := by rw [mul_assoc, hpow]

/-- The rounding of a rational keeps the sign and is an infinity or finite. -/
theorem F64.roundQ_cases (s : Bool) (n d : Nat) :
    roundQ s n d = inf s ∨ ∃ m e, roundQ s n d = fin s m e := by
  unfold roundQ
  split_ifs
  · exact Or.inr ⟨_, _, rfl⟩
  · simp only [roundAt]
    split_ifs <;> first | exact Or.inl rfl | exact Or.inr ⟨_, _, rfl⟩

/-- Rounding does not cross an integer bound `c < 2^52`: if `n / d ≤ c` then
`roundQ s n d` is finite with magnitude at most `c`. -/
theorem F64.roundQ_le (s : Bool) (n d c : Nat) (hd : 0 < d) (h : n ≤ c * d)
    (hc : c < 2 ^ 52) :
    ∃ m e1, roundQ s n d = fin s m e1 ∧ -1074 ≤ e1
      ∧ m * 2 ^ (e1 + 1074).toNat ≤ c * 2 ^ 1074 := by
  by_cases hn : n = 0
  · refine ⟨0, -1074, by simp [roundQ, hn], le_refl _, by simp⟩
  · have hlt : n < 2 ^ 52 * d := by
      calc n ≤ c * d := h
        _ < 2 ^ 52 * d := Nat.mul_lt_mul_of_pos_right hc hd
    have hfl := F64.floorLog2_le n d 52 hn (by omega) hlt
    have hmax : ∃ a : Nat, Max.max (floorLog2 n d - 52) (-1074) = -(a : Int) ∧ a ≤ 1074 := by
      refine ⟨(-(Max.max (floorLog2 n d - 52) (-1074))).toNat, ?_, ?_⟩
      · have : Max.max (floorLog2 n d - 52) (-1074) ≤ 0 := by
          apply max_le <;> omega
        omega
      · have : -1074 ≤ Max.max (floorLog2 n d - 52) (-1074) := le_max_right _ _
        omega
    obtain ⟨a, hae, ha⟩ := hmax
    obtain ⟨m, e1, hr, h1, _, h3⟩ := F64.roundAt_le s n d c a hd h ha
    refine ⟨m, e1, ?_, h1, h3⟩
    simp only [roundQ, if_neg hn, hae, hr]

/-- The scaled integer at a larger shift. -/
theorem F64.scaled_add (s : Bool) (m k j : Nat) :
    scaled s m (k + j) = scaled s m k * (2 : Int) ^ j := by
  unfold scaled
  split_ifs <;> push_cast <;> ring

/-- Comparison `<=` of two finite Numbers at any common shift `S`. -/
theorem F64.le_fin (s1 : Bool) (m1 : Nat) (e1 : Int) (s2 : Bool) (m2 : Nat) (e2 : Int)
    (S : Int) (h1 : 0 ≤ e1 + S) (h2 : 0 ≤ e2 + S) :
    le (fin s1 m1 e1) (fin s2 m2 e2)
      = decide (scaled s1 m1 (e1 + S).toNat ≤ scaled s2 m2 (e2 + S).toNat) := by
  have k1 : (e1 + S).toNat = (e1 - min e1 e2).toNat + (min e1 e2 + S).toNat := by omega
  have k2 : (e2 + S).toNat = (e2 - min e1 e2).toNat + (min e1 e2 + S).toNat := by omega
  have hpos : (0 : Int) < 2 ^ (min e1 e2 + S).toNat := by positivity
  simp only [le]
  rw [k1, k2, F64.scaled_add, F64.scaled_add]
  congr 1
  exact propext (mul_le_mul_right hpos).symm

/-- Comparison `<` of two finite Numbers at any common shift `S`. -/
theorem F64.lt_fin (s1 : Bool) (m1 : Nat) (e1 : Int) (s2 : Bool) (m2 : Nat) (e2 : Int)
    (S : Int) (h1 : 0 ≤ e1 + S) (h2 : 0 ≤ e2 + S) :
    lt (fin s1 m1 e1) (fin s2 m2 e2)
      = decide (scaled s1 m1 (e1 + S).toNat < scaled s2 m2 (e2 + S).toNat) := by
  have k1 : (e1 + S).toNat = (e1 - min e1 e2).toNat + (min e1 e2 + S).toNat := by omega
  have k2 : (e2 + S).toNat = (e2 - min e1 e2).toNat + (min e1 e2 + S).toNat := by omega
  have hpos : (0 : Int) < 2 ^ (min e1 e2 + S).toNat := by positivity
  simp only [lt]
  rw [k1, k2, F64.scaled_add, F64.scaled_add]
  congr 1
  exact propext (mul_lt_mul_right hpos).symm

/-- The literal `100` as a Number. -/
theorem F64.ofNat_hundred : ofNat 100 = fin false 7036874417766400 (-46) := by decide

/-- The literal `50` as a Number. -/
theorem F64.ofNat_fifty : ofNat 50 = fin false 7036874417766400 (-47) := by decide

/-- The literal `2` as a Number. -/
theorem F64.ofNat_two : ofNat 2 = fin false 4503599627370496 (-51) := by decide

/-- `Math.max(100, r)` is `100` when `r` is a number that is not above `100`. -/
theorem F64.max_hundred (r : F64) (hn : isNaN r = false) (h : lt (ofNat 100) r = false) :
    F64.max (ofNat 100) r = ofNat 100 := by
  unfold F64.max
  rw [h, hn, F64.ofNat_hundred]
  simp [isNaN]

/-- Doubling a Number that is at most `50` gives a Number that is not above `100`. -/
theorem F64.mul_two_le (t : F64) (h : le t (ofNat 50) = true) :
    isNaN (t * ofNat 2) = false ∧ lt (ofNat 100) (t * ofNat 2) = false := by
  rw [F64.ofNat_two, F64.ofNat_hundred]
  rw [F64.ofNat_fifty] at h
  cases t with
  | nan => simp [le] at h
  | inf s =>
    cases s
    · simp [le] at h
    · exact ⟨rfl, rfl⟩
  | fin s m e =>
    show isNaN (F64.mul (fin s m e) (fin false 4503599627370496 (-51))) = false
      ∧ lt (fin false 7036874417766400 (-46))
          (F64.mul (fin s m e) (fin false 4503599627370496 (-51))) = false
    simp only [F64.mul, Bool.xor_false]
    cases s
    · -- positive: the exact double is at most 100
      have hS1 : 0 ≤ e + (((51 - e).toNat : Int) + 47) := by omega
      have hS2 : 0 ≤ (-47 : Int) + (((51 - e).toNat : Int) + 47) := by omega
      rw [F64.le_fin false m e false 7036874417766400 (-47) (((51 - e).toNat : Int) + 47)
        hS1 hS2] at h
      have h' := of_decide_eq_true h
      have k1 : (e + (((51 - e).toNat : Int) + 47)).toNat = (e - 51).toNat + 98 := by omega
      have k2 : ((-47 : Int) + (((51 - e).toNat : Int) + 47)).toNat = (51 - e).toNat := by omega
      rw [k1, k2] at h'
      simp only [scaled, Bool.false_eq_true, if_false] at h'
      have h'' : m * 2 ^ ((e - 51).toNat + 98) ≤ 7036874417766400 * 2 ^ (51 - e).toNat := by
        exact_mod_cast h'
      have hnd : m * 4503599627370496 * 2 ^ (e + -51).toNat
          ≤ 100 * 2 ^ (-(e + -51)).toNat := by
        have e1 : (e + -51).toNat = (e - 51).toNat := by omega
        have e2 : (-(e + -51)).toNat = (51 - e).toNat := by omega
        rw [e1, e2]
        rw [pow_add] at h''
        have : (2 : Nat) ^ 98 = 316912650057057350374175801344 := by norm_num
        rw [this] at h''
        generalize 2 ^ (e - 51).toNat = A at h'' ⊢
        generalize 2 ^ (51 - e).toNat = B at h'' ⊢
        nlinarith
      obtain ⟨m1, e1, hr, he1, hb⟩ := F64.roundQ_le false _ _ 100 (by positivity) hnd
        (by norm_num)
      rw [hr]
      refine ⟨rfl, ?_⟩
      rw [F64.lt_fin false 7036874417766400 (-46) false m1 e1 1074 (by norm_num) (by omega)]
      apply decide_eq_false
      simp only [scaled, Bool.false_eq_true, if_false]
      have k : ((-46 : Int) + 1074).toNat = 1028 := by omega
      rw [k]
      have hh : 7036874417766400 * 2 ^ 1028 = 100 * 2 ^ 1074 := by norm_num
      rw [not_lt]
      have : m1 * 2 ^ (e1 + 1074).toNat ≤ 7036874417766400 * 2 ^ 1028 := by
        rw [hh]; exact hb
      exact_mod_cast this
    · -- negative: the product is negative or a negative infinity
      rcases F64.roundQ_cases true (m * 4503599627370496 * 2 ^ (e + -51).toNat)
        (2 ^ (-(e + -51)).toNat) with hr | ⟨m1, e1, hr⟩
      · rw [hr]; exact ⟨rfl, rfl⟩
      · rw [hr]
        refine ⟨rfl, ?_⟩
        simp only [lt, scaled, if_true, Bool.false_eq_true, if_false]
        apply decide_eq_false
        rw [not_lt]
        have h1 : (0 : Int) ≤ ((7036874417766400 * 2 ^ (-46 - min (-46) e1).toNat : Nat) : Int) :=
          Int.natCast_nonneg _
        have h2 : (0 : Int) ≤ ((m1 * 2 ^ (e1 - min (-46) e1).toNat : Nat) : Int) :=
          Int.natCast_nonneg _
        omega

/-- For every time `t <= 50` the horizon `Math.max(100, t * 2)` is `100`. -/
theorem plotMaxTime_of_le_fifty (t : F64) (h : le t (ofNat 50) = true) :
    plotMaxTime t = ofNat 100 := by
  obtain ⟨hn, hl⟩ := F64.mul_two_le t h
  exact F64.max_hundred _ hn hl

/-! ## Comparison lemmas -/

/-- On numbers, `a <= b` is the negation of `b < a`. -/
theorem F64.le_eq_not_lt (a b : F64) (ha : isNaN a = false) (hb : isNaN b = false) :
    le a b = !lt b a := by
  cases a with
  | nan => simp [isNaN] at ha
  | inf s =>
    cases b with
    | nan => simp [isNaN] at hb
    | inf t => cases s <;> cases t <;> rfl
    | fin t m e => cases s <;> rfl
  | fin s m e =>
    cases b with
    | nan => simp [isNaN] at hb
    | inf t => cases t <;> rfl
    | fin t n f =>
      simp only [le, lt]
      rw [min_comm f e]
      by_cases hc : scaled s m (e - min e f).toNat ≤ scaled t n (f - min e f).toNat
      · simp [hc, not_lt.mpr hc]
      · simp [hc, not_le.mp hc]

/-- On numbers, `a < b` is the negation of `b <= a`. -/
theorem F64.lt_eq_not_le (a b : F64) (ha : isNaN a = false) (hb : isNaN b = false) :
    lt a b = !le b a := by
  rw [F64.le_eq_not_lt b a hb ha, Bool.not_not]

/-! ## Rounding is monotone: the value of a rounded result -/

/-- The rounded quotient is the floor or the floor plus one. -/
theorem F64.rne_bounds (X D : Nat) : X / D ≤ rne X D ∧ rne X D ≤ X / D + 1 := by
  unfold rne
  split_ifs <;> omega

/-- Rounding to nearest even is monotone in the rational `X / D`. -/
theorem F64.rne_mono (X1 D1 X2 D2 : Nat) (h1 : 0 < D1) (h2 : 0 < D2)
    (h : X1 * D2 ≤ X2 * D1) : rne X1 D1 ≤ rne X2 D2 := by
  have hq : X1 / D1 ≤ X2 / D2 := by
    rw [Nat.le_div_iff_mul_le h2]
    have a1 : X1 / D1 * D1 ≤ X1 := Nat.div_mul_le_self X1 D1
    have a2 : X1 / D1 * D2 * D1 ≤ X2 * D1 := by
      calc X1 / D1 * D2 * D1 = (X1 / D1 * D1) * D2 := by ring
        _ ≤ X1 * D2 := Nat.mul_le_mul_right _ a1
        _ ≤ X2 * D1 := h
    exact Nat.le_of_mul_le_mul_right a2 h1
  rcases Nat.lt_or_ge (X1 / D1) (X2 / D2) with hlt | hge
  · have b1 := (F64.rne_bounds X1 D1).2
    have b2 := (F64.rne_bounds X2 D2).1
    omega
  · have heq : X1 / D1 = X2 / D2 := le_antisymm hq hge
    have m1 := Nat.div_add_mod X1 D1
    have m2 := Nat.div_add_mod X2 D2
    have r1 : X1 % D1 < D1 := Nat.mod_lt _ h1
    have r2 : X2 % D2 < D2 := Nat.mod_lt _ h2
    -- remainders compare after cross multiplication
    have hr : X1 % D1 * D2 ≤ X2 % D2 * D1 := by
      have e1 : X1 * D2 = (D1 * (X1 / D1) + X1 % D1) * D2 := by rw [m1]
      have e2 : X2 * D1 = (D2 * (X2 / D2) + X2 % D2) * D1 := by rw [m2]
      rw [e1, e2, heq] at h
      have : (D1 * (X2 / D2) + X1 % D1) * D2 = D1 * D2 * (X2 / D2) + X1 % D1 * D2 := by ring
      rw [this] at h
      have : (D2 * (X2 / D2) + X2 % D2) * D1 = D1 * D2 * (X2 / D2) + X2 % D2 * D1 := by ring
      rw [this] at h
      omega
    unfold rne
    rw [heq]
    by_cases hup : D1 < 2 * (X1 % D1) ∨ (2 * (X1 % D1) = D1 ∧ X2 / D2 % 2 = 1)
    · have hup2 : D2 < 2 * (X2 % D2) ∨ (2 * (X2 % D2) = D2 ∧ X2 / D2 % 2 = 1) := by
        rcases hup with hu | ⟨hu, hodd⟩
        · left
          have : D1 * D2 < 2 * (X2 % D2) * D1 := by
            calc D1 * D2 < 2 * (X1 % D1) * D2 := Nat.mul_lt_mul_of_pos_right hu h2
              _ = 2 * (X1 % D1 * D2) := by ring
              _ ≤ 2 * (X2 % D2 * D1) := Nat.mul_le_mul_left _ hr
              _ = 2 * (X2 % D2) * D1 := by ring
          have : D2 * D1 < 2 * (X2 % D2) * D1 := by rwa [mul_comm D2 D1]
          exact Nat.lt_of_mul_lt_mul_right this
        · have : D2 * D1 ≤ 2 * (X2 % D2) * D1 := by
            calc D2 * D1 = 2 * (X1 % D1) * D2 := by rw [hu]; ring
              _ = 2 * (X1 % D1 * D2) := by ring
              _ ≤ 2 * (X2 % D2 * D1) := Nat.mul_le_mul_left _ hr
              _ = 2 * (X2 % D2) * D1 := by ring
          have hle : D2 ≤ 2 * (X2 % D2) := Nat.le_of_mul_le_mul_right this h1
          rcases Nat.lt_or_ge D2 (2 * (X2 % D2)) with hl | hg
          · exact Or.inl hl
          · exact Or.inr ⟨le_antisymm hg hle, hodd⟩
      rw [if_pos hup, if_pos hup2]
    · rw [if_neg hup]
      split_ifs <;> omega

/-- An exact quotient is not changed by rounding. -/
theorem F64.rne_exact (K D : Nat) (h : 0 < D) : rne (K * D) D = K := by
  unfold rne
  have h1 : K * D % D = 0 := Nat.mul_mod_left K D
  have h2 : K * D / D = K := Nat.mul_div_cancel K h
  rw [h1, h2]
  have : ¬ (D < 2 * 0 ∨ (2 * 0 = D ∧ K % 2 = 1)) := by omega
  rw [if_neg this]

/-- Rounding does not cross an integer above. -/
theorem F64.rne_le (X D K : Nat) (h : 0 < D) (hx : X ≤ K * D) : rne X D ≤ K := by
  have := F64.rne_mono X D (K * D) D h h (by nlinarith)
  rwa [F64.rne_exact K D h] at this

/-- Rounding does not cross an integer below. -/
theorem F64.le_rne (X D K : Nat) (h : 0 < D) (hx : K * D ≤ X) : K ≤ rne X D := by
  have := F64.rne_mono (K * D) D X D h h (by nlinarith)
  rwa [F64.rne_exact K D h] at this

/-- A power of two with an integer exponent, as a quotient of two natural powers. -/
theorem F64.two_zpow_split (k : Int) :
    (2 : ℚ) ^ k = (2 : ℚ) ^ k.toNat / (2 : ℚ) ^ (-k).toNat := by
  rcases le_total 0 k with h | h
  · have h1 : (-k).toNat = 0 := by omega
    have h2 : (k.toNat : Int) = k := Int.toNat_of_nonneg h
    rw [h1, pow_zero, div_one, ← zpow_natCast, h2]
  · have h1 : k.toNat = 0 := by omega
    have h2 : ((-k).toNat : Int) = -k := Int.toNat_of_nonneg (by omega)
    rw [h1, pow_zero, one_div, ← zpow_natCast, h2, zpow_neg, inv_inv]

/-- The quotient `n / d` lies in `[2^fl, 2^(fl+1))` for `fl = floorLog2 n d`. -/
theorem F64.floorLog2_spec (n d : Nat) (hn : n ≠ 0) (hd : d ≠ 0) :
    (2 : ℚ) ^ (floorLog2 n d) * d ≤ n ∧ (n : ℚ) < (2 : ℚ) ^ (floorLog2 n d + 1) * d := by
  obtain ⟨bn, hbn, hn1, hn2⟩ := F64.bitLen_spec n hn
  obtain ⟨bd, hbd, hd1, hd2⟩ := F64.bitLen_spec d hd
  have hn1q : (2 : ℚ) ^ bn ≤ n := by exact_mod_cast hn1
  have hn2q : (n : ℚ) < (2 : ℚ) ^ (bn + 1) := by exact_mod_cast hn2
  have hd1q : (2 : ℚ) ^ bd ≤ d := by exact_mod_cast hd1
  have hd2q : (d : ℚ) < (2 : ℚ) ^ (bd + 1) := by exact_mod_cast hd2
  have hdpos : (0 : ℚ) < d := by exact_mod_cast Nat.pos_of_ne_zero hd
  have hk : ((bn + 1 : Nat) : Int) - ((bd + 1 : Nat) : Int) = (bn : Int) - bd := by
    push_cast; ring
  simp only [floorLog2, hbn, hbd, hk]
  have hsplit := F64.two_zpow_split ((bn : Int) - bd)
  have hP : (0 : ℚ) < (2 : ℚ) ^ ((bn : Int) - bd).toNat := by positivity
  have hN : (0 : ℚ) < (2 : ℚ) ^ (-((bn : Int) - bd)).toNat := by positivity
  have hkpow : (2 : ℚ) ^ ((bn : Int) - bd) = (2 : ℚ) ^ bn / (2 : ℚ) ^ bd := by
    rw [zpow_sub₀ (by norm_num), zpow_natCast, zpow_natCast]
  have hbdpos : (0 : ℚ) < (2 : ℚ) ^ bd := by positivity
  have hbnpos : (0 : ℚ) < (2 : ℚ) ^ bn := by positivity
  by_cases htest : d * 2 ^ ((bn : Int) - bd).toNat ≤ n * 2 ^ (-((bn : Int) - bd)).toNat
  · rw [if_pos htest]
    have htq : (d : ℚ) * (2 : ℚ) ^ ((bn : Int) - bd).toNat
        ≤ n * (2 : ℚ) ^ (-((bn : Int) - bd)).toNat := by exact_mod_cast htest
    constructor
    · rw [hsplit, div_mul_eq_mul_div, div_le_iff₀ hN]
      linarith
    · rw [zpow_add₀ (by norm_num), hkpow, zpow_one]
      have : (2 : ℚ) ^ bn / (2 : ℚ) ^ bd * 2 * d = (2 : ℚ) ^ (bn + 1) * (d / (2 : ℚ) ^ bd) := by
        rw [pow_succ]; field_simp
      rw [this]
      have h1 : (1 : ℚ) ≤ d / (2 : ℚ) ^ bd := by rw [le_div_iff₀ hbdpos]; linarith
      calc (n : ℚ) < (2 : ℚ) ^ (bn + 1) := hn2q
        _ = (2 : ℚ) ^ (bn + 1) * 1 := by ring
        _ ≤ (2 : ℚ) ^ (bn + 1) * (d / (2 : ℚ) ^ bd) :=
          mul_le_mul_of_nonneg_left h1 (by positivity)
  · rw [if_neg htest]
    have htq : (n : ℚ) * (2 : ℚ) ^ (-((bn : Int) - bd)).toNat
        < d * (2 : ℚ) ^ ((bn : Int) - bd).toNat := by
      have := not_le.mp htest
      exact_mod_cast this
    constructor
    · rw [zpow_sub₀ (by norm_num), hkpow, zpow_one]
      have : (2 : ℚ) ^ bn / (2 : ℚ) ^ bd / 2 * d = (2 : ℚ) ^ bn * (d / (2 : ℚ) ^ (bd + 1)) := by
        rw [pow_succ]; field_simp
      rw [this]
      have h1 : d / (2 : ℚ) ^ (bd + 1) ≤ 1 := by
        rw [div_le_iff₀ (by positivity)]; linarith
      calc (2 : ℚ) ^ bn * (d / (2 : ℚ) ^ (bd + 1)) ≤ (2 : ℚ) ^ bn * 1 :=
            mul_le_mul_of_nonneg_left h1 (by positivity)
        _ = (2 : ℚ) ^ bn := by ring
        _ ≤ n := hn1q
    · have : (bn : Int) - bd - 1 + 1 = (bn : Int) - bd := by ring
      rw [this, hsplit, div_mul_eq_mul_div, lt_div_iff₀ hN]
      linarith

/-- An inequality on the grid `2^e`, read on rationals (upper bound). -/
theorem F64.grid_le_iff (n d K : Nat) (e : Int) :
    n * 2 ^ (-e).toNat ≤ K * (d * 2 ^ e.toNat) ↔ (n : ℚ) ≤ K * (2 : ℚ) ^ e * d := by
  have hN : (0 : ℚ) < (2 : ℚ) ^ (-e).toNat := by positivity
  rw [F64.two_zpow_split e]
  have : (K : ℚ) * ((2 : ℚ) ^ e.toNat / (2 : ℚ) ^ (-e).toNat) * d
      = (K * (d * (2 : ℚ) ^ e.toNat)) / (2 : ℚ) ^ (-e).toNat := by
    field_simp
    ring
  rw [this, le_div_iff₀ hN]
  constructor
  · intro h; exact_mod_cast h
  · intro h; exact_mod_cast h

/-- An inequality on the grid `2^e`, read on rationals (lower bound). -/
theorem F64.grid_ge_iff (n d K : Nat) (e : Int) :
    K * (d * 2 ^ e.toNat) ≤ n * 2 ^ (-e).toNat ↔ (K : ℚ) * (2 : ℚ) ^ e * d ≤ n := by
  have hN : (0 : ℚ) < (2 : ℚ) ^ (-e).toNat := by positivity
  rw [F64.two_zpow_split e]
  have : (K : ℚ) * ((2 : ℚ) ^ e.toNat / (2 : ℚ) ^ (-e).toNat) * d
      = (K * (d * (2 : ℚ) ^ e.toNat)) / (2 : ℚ) ^ (-e).toNat := by
    field_simp
    ring
  rw [this, div_le_iff₀ hN]
  constructor
  · intro h; exact_mod_cast h
  · intro h; exact_mod_cast h

/-- The grid exponent is at least `-1074` and at least `floorLog2 - 52`. -/
theorem F64.rexp_bounds (n d : Nat) :
    -1074 ≤ rexp n d ∧ floorLog2 n d - 52 ≤ rexp n d
      ∧ (rexp n d = -1074 ∨ rexp n d = floorLog2 n d - 52) := by
  unfold rexp
  refine ⟨le_max_right _ _, le_max_left _ _, ?_⟩
  rcases le_total (floorLog2 n d - 52) (-1074) with h | h
  · left; exact max_eq_right h
  · right; exact max_eq_left h

/-- The rounded significand is at most `2^53`. -/
theorem F64.rquo_le (n d : Nat) (hn : n ≠ 0) (hd : d ≠ 0) : rquo n d ≤ 2 ^ 53 := by
  have hdp : 0 < d * 2 ^ (rexp n d).toNat := by positivity
  apply F64.rne_le _ _ _ hdp
  rw [F64.grid_le_iff]
  obtain ⟨_, hup⟩ := F64.floorLog2_spec n d hn hd
  obtain ⟨_, hb, _⟩ := F64.rexp_bounds n d
  have hdq : (0 : ℚ) < d := by exact_mod_cast Nat.pos_of_ne_zero hd
  have h1 : (2 : ℚ) ^ (floorLog2 n d + 1) ≤ (2 : ℚ) ^ (53 + rexp n d) :=
    zpow_le_zpow_right₀ (by norm_num) (by omega)
  have h2 : (2 : ℚ) ^ (53 + rexp n d) = ((2 ^ 53 : Nat) : ℚ) * (2 : ℚ) ^ (rexp n d) := by
    rw [zpow_add₀ (by norm_num)]; norm_num
  rw [← h2]
  calc (n : ℚ) ≤ (2 : ℚ) ^ (floorLog2 n d + 1) * d := le_of_lt hup
    _ ≤ (2 : ℚ) ^ (53 + rexp n d) * d := mul_le_mul_of_nonneg_right h1 (le_of_lt hdq)

/-- Above the subnormal grid the rounded significand is at least `2^52`. -/
theorem F64.le_rquo (n d : Nat) (hn : n ≠ 0) (hd : d ≠ 0)
    (he : rexp n d = floorLog2 n d - 52) : 2 ^ 52 ≤ rquo n d := by
  have hdp : 0 < d * 2 ^ (rexp n d).toNat := by positivity
  apply F64.le_rne _ _ _ hdp
  rw [F64.grid_ge_iff]
  obtain ⟨hlo, _⟩ := F64.floorLog2_spec n d hn hd
  have h2 : ((2 ^ 52 : Nat) : ℚ) * (2 : ℚ) ^ (rexp n d) = (2 : ℚ) ^ (floorLog2 n d) := by
    rw [he]
    have : floorLog2 n d = 52 + (floorLog2 n d - 52) := by ring
    conv_rhs => rw [this, zpow_add₀ (by norm_num : (2 : ℚ) ≠ 0)]
    norm_num
  rw [h2]
  exact hlo

/-- The result of `roundQ` in terms of the rounded value: an infinity when the
rounded value reaches `2^1024`, else the finite Number with that value. -/
theorem F64.roundQ_spec (s : Bool) (n d : Nat) (hn : n ≠ 0) (hd : d ≠ 0) :
    (rval n d < (2 : ℚ) ^ (1024 : Int) →
      ∃ m e1, roundQ s n d = fin s m e1 ∧ (m : ℚ) * (2 : ℚ) ^ e1 = rval n d ∧ -1074 ≤ e1)
    ∧ ((2 : ℚ) ^ (1024 : Int) ≤ rval n d → roundQ s n d = inf s) := by
  have hq53 := F64.rquo_le n d hn hd
  obtain ⟨hb1, hb2, hb3⟩ := F64.rexp_bounds n d
  have hr : roundQ s n d
      = if 971 < (if rquo n d = 2 ^ 53 then rexp n d + 1 else rexp n d) then inf s
        else fin s (if rquo n d = 2 ^ 53 then 2 ^ 52 else rquo n d)
          (if rquo n d = 2 ^ 53 then rexp n d + 1 else rexp n d) := by
    simp only [roundQ, if_neg hn, roundAt, rquo, rexp, rne]
  -- the value after renormalisation
  have hval : (((if rquo n d = 2 ^ 53 then 2 ^ 52 else rquo n d : Nat) : ℚ))
      * (2 : ℚ) ^ (if rquo n d = 2 ^ 53 then rexp n d + 1 else rexp n d) = rval n d := by
    unfold rval
    split_ifs with h
    · rw [h, zpow_add₀ (by norm_num)]; norm_num; ring
    · rfl
  have hm53 : (if rquo n d = 2 ^ 53 then 2 ^ 52 else rquo n d) < 2 ^ 53 := by
    split_ifs with h
    · norm_num
    · omega
  have hov : 971 < (if rquo n d = 2 ^ 53 then rexp n d + 1 else rexp n d)
      → (2 : ℚ) ^ (1024 : Int) ≤ rval n d := by
    intro h
    have he : rexp n d = floorLog2 n d - 52 := by
      rcases hb3 with h3 | h3
      · exfalso; split_ifs at h <;> omega
      · exact h3
    have h52 := F64.le_rquo n d hn hd he
    have hm52 : 2 ^ 52 ≤ (if rquo n d = 2 ^ 53 then 2 ^ 52 else rquo n d) := by
      split_ifs <;> omega
    rw [← hval]
    have h1 : (2 : ℚ) ^ (972 : Int)
        ≤ (2 : ℚ) ^ (if rquo n d = 2 ^ 53 then rexp n d + 1 else rexp n d) :=
      zpow_le_zpow_right₀ (by norm_num) (by omega)
    have h2 : ((2 ^ 52 : Nat) : ℚ)
        ≤ ((if rquo n d = 2 ^ 53 then 2 ^ 52 else rquo n d : Nat) : ℚ) := by
      exact_mod_cast hm52
    calc (2 : ℚ) ^ (1024 : Int) = ((2 ^ 52 : Nat) : ℚ) * (2 : ℚ) ^ (972 : Int) := by norm_num
      _ ≤ ((if rquo n d = 2 ^ 53 then 2 ^ 52 else rquo n d : Nat) : ℚ)
            * (2 : ℚ) ^ (if rquo n d = 2 ^ 53 then rexp n d + 1 else rexp n d) :=
          mul_le_mul h2 h1 (by positivity) (by positivity)
  have hnov : ¬ 971 < (if rquo n d = 2 ^ 53 then rexp n d + 1 else rexp n d)
      → rval n d < (2 : ℚ) ^ (1024 : Int) := by
    intro h
    rw [← hval]
    have h1 : (2 : ℚ) ^ (if rquo n d = 2 ^ 53 then rexp n d + 1 else rexp n d)
        ≤ (2 : ℚ) ^ (971 : Int) :=
      zpow_le_zpow_right₀ (by norm_num) (by omega)
    have h2 : ((if rquo n d = 2 ^ 53 then 2 ^ 52 else rquo n d : Nat) : ℚ)
        < ((2 ^ 53 : Nat) : ℚ) := by
      exact_mod_cast hm53
    calc ((if rquo n d = 2 ^ 53 then 2 ^ 52 else rquo n d : Nat) : ℚ)
            * (2 : ℚ) ^ (if rquo n d = 2 ^ 53 then rexp n d + 1 else rexp n d)
          < ((2 ^ 53 : Nat) : ℚ)
            * (2 : ℚ) ^ (if rquo n d = 2 ^ 53 then rexp n d + 1 else rexp n d) :=
          mul_lt_mul_of_pos_right h2 (by positivity)
      _ ≤ ((2 ^ 53 : Nat) : ℚ) * (2 : ℚ) ^ (971 : Int) :=
          mul_le_mul_of_nonneg_left h1 (by positivity)
      _ = (2 : ℚ) ^ (1024 : Int) := by norm_num
  constructor
  · intro hlt
    have hno : ¬ 971 < (if rquo n d = 2 ^ 53 then rexp n d + 1 else rexp n d) := by
      intro h
      exact absurd (hov h) (not_le.mpr hlt)
    refine ⟨_, _, ?_, hval, ?_⟩
    · rw [hr, if_neg hno]
    · split_ifs <;> omega
  · intro hge
    have hyes : 971 < (if rquo n d = 2 ^ 53 then rexp n d + 1 else rexp n d) := by
      by_contra h
      exact absurd (hnov h) (not_lt.mpr hge)
    rw [hr, if_pos hyes]

/-- The exponent `floorLog2` is monotone in the rational `n / d`. -/
theorem F64.floorLog2_mono (n1 d1 n2 d2 : Nat) (hn1 : n1 ≠ 0) (hd1 : d1 ≠ 0)
    (hn2 : n2 ≠ 0) (hd2 : d2 ≠ 0) (h : n1 * d2 ≤ n2 * d1) :
    floorLog2 n1 d1 ≤ floorLog2 n2 d2 := by
  obtain ⟨hlo1, _⟩ := F64.floorLog2_spec n1 d1 hn1 hd1
  obtain ⟨_, hup2⟩ := F64.floorLog2_spec n2 d2 hn2 hd2
  have hq : (n1 : ℚ) * d2 ≤ n2 * d1 := by exact_mod_cast h
  have hd1q : (0 : ℚ) < d1 := by exact_mod_cast Nat.pos_of_ne_zero hd1
  have hd2q : (0 : ℚ) < d2 := by exact_mod_cast Nat.pos_of_ne_zero hd2
  by_contra hc
  push_neg at hc
  have hp : (2 : ℚ) ^ (floorLog2 n2 d2 + 1) ≤ (2 : ℚ) ^ (floorLog2 n1 d1) :=
    zpow_le_zpow_right₀ (by norm_num) (by omega)
  have h1 : (2 : ℚ) ^ (floorLog2 n1 d1) * d1 * d2 ≤ n1 * d2 :=
    mul_le_mul_of_nonneg_right hlo1 (le_of_lt hd2q)
  have h2 : (n2 : ℚ) * d1 < (2 : ℚ) ^ (floorLog2 n2 d2 + 1) * d2 * d1 :=
    mul_lt_mul_of_pos_right hup2 hd1q
  have h3 : (2 : ℚ) ^ (floorLog2 n2 d2 + 1) * d2 * d1
      ≤ (2 : ℚ) ^ (floorLog2 n1 d1) * d1 * d2 := by
    have : (2 : ℚ) ^ (floorLog2 n2 d2 + 1) * (d2 * d1)
        ≤ (2 : ℚ) ^ (floorLog2 n1 d1) * (d2 * d1) :=
      mul_le_mul_of_nonneg_right hp (by positivity)
    linarith
  linarith

/-- The rounded value is monotone in the rational `n / d`. -/
theorem F64.rval_mono (n1 d1 n2 d2 : Nat) (hn1 : n1 ≠ 0) (hd1 : d1 ≠ 0) (hd2 : d2 ≠ 0)
    (h : n1 * d2 ≤ n2 * d1) : rval n1 d1 ≤ rval n2 d2 := by
  have hn2 : n2 ≠ 0 := by
    rintro rfl
    have : 0 < n1 * d2 := Nat.mul_pos (Nat.pos_of_ne_zero hn1) (Nat.pos_of_ne_zero hd2)
    omega
  have hfl := F64.floorLog2_mono n1 d1 n2 d2 hn1 hd1 hn2 hd2 h
  obtain ⟨a1, a2, a3⟩ := F64.rexp_bounds n1 d1
  obtain ⟨b1, b2, b3⟩ := F64.rexp_bounds n2 d2
  have hd1q : (0 : ℚ) < d1 := by exact_mod_cast Nat.pos_of_ne_zero hd1
  have hle : rexp n1 d1 ≤ rexp n2 d2 := by
    rcases a3 with a3 | a3 <;> omega
  rcases eq_or_lt_of_le hle with heq | hlt
  · -- same grid
    have hq : rquo n1 d1 ≤ rquo n2 d2 := by
      unfold rquo
      rw [heq]
      apply F64.rne_mono _ _ _ _ (by positivity) (by positivity)
      calc n1 * 2 ^ (-rexp n2 d2).toNat * (d2 * 2 ^ (rexp n2 d2).toNat)
          = (n1 * d2) * (2 ^ (-rexp n2 d2).toNat * 2 ^ (rexp n2 d2).toNat) := by ring
        _ ≤ (n2 * d1) * (2 ^ (-rexp n2 d2).toNat * 2 ^ (rexp n2 d2).toNat) :=
            Nat.mul_le_mul_right _ h
        _ = n2 * 2 ^ (-rexp n2 d2).toNat * (d1 * 2 ^ (rexp n2 d2).toNat) := by ring
    unfold rval
    rw [heq]
    have : (rquo n1 d1 : ℚ) ≤ rquo n2 d2 := by exact_mod_cast hq
    exact mul_le_mul_of_nonneg_right this (by positivity)
  · -- a finer grid on the left: the power `2^(floorLog2 n2 d2)` separates
    have he2 : rexp n2 d2 = floorLog2 n2 d2 - 52 := by
      rcases b3 with b3 | b3
      · omega
      · exact b3
    have hlow : (2 : ℚ) ^ (floorLog2 n2 d2) ≤ rval n2 d2 := by
      have h52 := F64.le_rquo n2 d2 hn2 hd2 he2
      have h52q : ((2 ^ 52 : Nat) : ℚ) ≤ rquo n2 d2 := by exact_mod_cast h52
      unfold rval
      calc (2 : ℚ) ^ (floorLog2 n2 d2)
            = ((2 ^ 52 : Nat) : ℚ) * (2 : ℚ) ^ (rexp n2 d2) := by
              rw [he2]
              have : floorLog2 n2 d2 = 52 + (floorLog2 n2 d2 - 52) := by ring
              conv_lhs => rw [this, zpow_add₀ (by norm_num : (2 : ℚ) ≠ 0)]
              norm_num
        _ ≤ (rquo n2 d2 : ℚ) * (2 : ℚ) ^ (rexp n2 d2) :=
            mul_le_mul_of_nonneg_right h52q (by positivity)
    have hK : ((2 ^ (floorLog2 n2 d2 - rexp n1 d1).toNat : Nat) : ℚ) * (2 : ℚ) ^ (rexp n1 d1)
        = (2 : ℚ) ^ (floorLog2 n2 d2) := by
      have hnn : 0 ≤ floorLog2 n2 d2 - rexp n1 d1 := by omega
      push_cast
      rw [← zpow_natCast, Int.toNat_of_nonneg hnn, ← zpow_add₀ (by norm_num)]
      congr 1
      ring
    have hup : rval n1 d1 ≤ (2 : ℚ) ^ (floorLog2 n2 d2) := by
      have hq : rquo n1 d1 ≤ 2 ^ (floorLog2 n2 d2 - rexp n1 d1).toNat := by
        unfold rquo
        apply F64.rne_le _ _ _ (by positivity)
        rw [F64.grid_le_iff, hK]
        obtain ⟨_, hup1⟩ := F64.floorLog2_spec n1 d1 hn1 hd1
        have hp : (2 : ℚ) ^ (floorLog2 n1 d1 + 1) ≤ (2 : ℚ) ^ (floorLog2 n2 d2) :=
          zpow_le_zpow_right₀ (by norm_num) (by omega)
        calc (n1 : ℚ) ≤ (2 : ℚ) ^ (floorLog2 n1 d1 + 1) * d1 := le_of_lt hup1
          _ ≤ (2 : ℚ) ^ (floorLog2 n2 d2) * d1 :=
              mul_le_mul_of_nonneg_right hp (le_of_lt hd1q)
      have hqq : (rquo n1 d1 : ℚ) ≤ ((2 ^ (floorLog2 n2 d2 - rexp n1 d1).toNat : Nat) : ℚ) := by
        exact_mod_cast hq
      unfold rval
      calc (rquo n1 d1 : ℚ) * (2 : ℚ) ^ (rexp n1 d1)
            ≤ ((2 ^ (floorLog2 n2 d2 - rexp n1 d1).toNat : Nat) : ℚ) * (2 : ℚ) ^ (rexp n1 d1) :=
              mul_le_mul_of_nonneg_right hqq (by positivity)
        _ = (2 : ℚ) ^ (floorLog2 n2 d2) := hK
    exact le_trans hup hlow

/-- The scaled integer of a finite Number as a rational. -/
theorem F64.scaled_cast (s : Bool) (m : Nat) (e S : Int) (h : 0 ≤ e + S) :
    ((scaled s m (e + S).toNat : Int) : ℚ) = val (fin s m e) * (2 : ℚ) ^ S := by
  have hp : (2 : ℚ) ^ (e + S).toNat = (2 : ℚ) ^ e * (2 : ℚ) ^ S := by
    rw [← zpow_natCast, Int.toNat_of_nonneg h, zpow_add₀ (by norm_num)]
  unfold scaled val
  cases s
  · simp only [Bool.false_eq_true, if_false]
    push_cast
    rw [hp]; ring
  · simp only [if_true]
    push_cast
    rw [hp]; ring

/-- On finite Numbers `<=` is the order of the values. -/
theorem F64.le_fin_val (s1 : Bool) (m1 : Nat) (e1 : Int) (s2 : Bool) (m2 : Nat) (e2 : Int) :
    le (fin s1 m1 e1) (fin s2 m2 e2) = true ↔ val (fin s1 m1 e1) ≤ val (fin s2 m2 e2) := by
  have h1 : 0 ≤ e1 + ((e1.natAbs : Int) + e2.natAbs) := by omega
  have h2 : 0 ≤ e2 + ((e1.natAbs : Int) + e2.natAbs) := by omega
  rw [F64.le_fin s1 m1 e1 s2 m2 e2 _ h1 h2, decide_eq_true_iff]
  have hpos : (0 : ℚ) < (2 : ℚ) ^ ((e1.natAbs : Int) + e2.natAbs) := by positivity
  rw [← mul_le_mul_right hpos, ← F64.scaled_cast s1 m1 e1 _ h1, ← F64.scaled_cast s2 m2 e2 _ h2]
  exact Int.cast_le.symm

/-- On finite Numbers `<` is the strict order of the values. -/
theorem F64.lt_fin_val (s1 : Bool) (m1 : Nat) (e1 : Int) (s2 : Bool) (m2 : Nat) (e2 : Int) :
    lt (fin s1 m1 e1) (fin s2 m2 e2) = true ↔ val (fin s1 m1 e1) < val (fin s2 m2 e2) := by
  have h1 : 0 ≤ e1 + ((e1.natAbs : Int) + e2.natAbs) := by omega
  have h2 : 0 ≤ e2 + ((e1.natAbs : Int) + e2.natAbs) := by omega
  rw [F64.lt_fin s1 m1 e1 s2 m2 e2 _ h1 h2, decide_eq_true_iff]
  have hpos : (0 : ℚ) < (2 : ℚ) ^ ((e1.natAbs : Int) + e2.natAbs) := by positivity
  rw [← mul_lt_mul_right hpos, ← F64.scaled_cast s1 m1 e1 _ h1, ← F64.scaled_cast s2 m2 e2 _ h2]
  exact Int.cast_lt.symm

/-- A true comparison `<=` has no NaN operand. -/
theorem F64.not_nan_of_le (a b : F64) (h : le a b = true) :
    isNaN a = false ∧ isNaN b = false := by
  cases a <;> cases b <;> simp [le, isNaN] at h ⊢

/-- The comparison `<=` is transitive. -/
theorem F64.le_chain (a b c : F64) (hab : le a b = true) (hbc : le b c = true) :
    le a c = true := by
  cases a with
  | nan => simp [le] at hab
  | inf s =>
    cases b with
    | nan => simp [le] at hab
    | inf t =>
      cases c with
      | nan => simp [le] at hbc
      | inf u => cases s <;> cases t <;> cases u <;> simp [le] at hab hbc ⊢
      | fin u n f => cases s <;> cases t <;> simp [le] at hab hbc ⊢
    | fin t m e =>
      cases c with
      | nan => simp [le] at hbc
      | inf u => cases s <;> cases u <;> simp [le] at hab hbc ⊢
      | fin u n f => cases s <;> simp [le] at hab ⊢
  | fin s m e =>
    cases b with
    | nan => simp [le] at hab
    | inf t =>
      cases c with
      | nan => simp [le] at hbc
      | inf u => cases t <;> cases u <;> simp [le] at hab hbc ⊢
      | fin u n f => cases t <;> simp [le] at hab hbc
    | fin t m2 e2 =>
      cases c with
      | nan => simp [le] at hbc
      | inf u => cases u <;> simp [le] at hbc ⊢
      | fin u n f =>
        rw [F64.le_fin_val] at hab hbc ⊢
        exact le_trans hab hbc

/-- The value of `n / d` rounded on its grid, `0` for `n = 0`. -/
theorem F64.rval_nonneg (n d : Nat) : 0 ≤ rval n d := by
  unfold rval
  positivity

/-- The result of `roundQ`: an infinity of sign `s` (only for `n ≠ 0`), or a
finite Number of sign `s` whose magnitude is the rounded value. -/
theorem F64.roundQ_class (s : Bool) (n d : Nat) (hd : d ≠ 0) :
    (roundQ s n d = inf s ∧ n ≠ 0 ∧ (2 : ℚ) ^ (1024 : Int) ≤ rval n d)
    ∨ (∃ m e, roundQ s n d = fin s m e ∧ -1074 ≤ e
        ∧ (m : ℚ) * (2 : ℚ) ^ e = (if n = 0 then 0 else rval n d)
        ∧ (n ≠ 0 → rval n d < (2 : ℚ) ^ (1024 : Int))) := by
  by_cases hn : n = 0
  · right
    refine ⟨0, -1074, by simp [roundQ, hn], le_refl _, by simp [hn], fun h => absurd hn h⟩
  · obtain ⟨h1, h2⟩ := F64.roundQ_spec s n d hn hd
    rcases lt_or_le (rval n d) ((2 : ℚ) ^ (1024 : Int)) with hlt | hge
    · right
      obtain ⟨m, e, hr, hv, he⟩ := h1 hlt
      exact ⟨m, e, hr, he, by rw [if_neg hn]; exact hv, fun _ => hlt⟩
    · left
      exact ⟨h2 hge, hn, hge⟩

/-- The value of a finite Number in terms of sign and magnitude. -/
theorem F64.val_fin (s : Bool) (m : Nat) (e : Int) :
    val (fin s m e) = (if s then -1 else 1) * ((m : ℚ) * (2 : ℚ) ^ e) := by
  unfold val
  ring

/-- Rounding is monotone on non-negative rationals. -/
theorem F64.le_roundQ_pos (n1 d1 n2 d2 : Nat) (hd1 : d1 ≠ 0) (hd2 : d2 ≠ 0)
    (h : n1 * d2 ≤ n2 * d1) :
    le (roundQ false n1 d1) (roundQ false n2 d2) = true := by
  have hrv : (if n1 = 0 then 0 else rval n1 d1) ≤ (if n2 = 0 then 0 else rval n2 d2) := by
    by_cases hn1 : n1 = 0
    · rw [if_pos hn1]
      split_ifs
      · exact le_refl _
      · exact F64.rval_nonneg _ _
    · have hn2 : n2 ≠ 0 := by
        rintro rfl
        have : 0 < n1 * d2 := Nat.mul_pos (Nat.pos_of_ne_zero hn1) (Nat.pos_of_ne_zero hd2)
        omega
      rw [if_neg hn1, if_neg hn2]
      exact F64.rval_mono n1 d1 n2 d2 hn1 hd1 hd2 h
  rcases F64.roundQ_class false n2 d2 hd2 with ⟨hr2, hn2, hv2⟩ | ⟨m2, e2, hr2, _, hv2, hlt2⟩
  · rw [hr2]
    rcases F64.roundQ_class false n1 d1 hd1 with ⟨hr1, _, _⟩ | ⟨m1, e1, hr1, _, _, _⟩
    · rw [hr1]; rfl
    · rw [hr1]; rfl
  · rw [hr2]
    rcases F64.roundQ_class false n1 d1 hd1 with ⟨hr1, hn1, hv1⟩ | ⟨m1, e1, hr1, _, hv1, _⟩
    · exfalso
      rw [if_neg hn1] at hrv
      by_cases hn2 : n2 = 0
      · rw [if_pos hn2] at hrv
        have : (0 : ℚ) < (2 : ℚ) ^ (1024 : Int) := by positivity
        linarith
      · rw [if_neg hn2] at hrv
        have := hlt2 hn2
        linarith
    · rw [hr1, F64.le_fin_val, F64.val_fin, F64.val_fin, hv1, hv2]
      simpa using hrv

/-- Negation reverses `<=`. -/
theorem F64.le_neg_neg (a b : F64) : le (neg a) (neg b) = le b a := by
  cases a with
  | nan => cases b <;> rfl
  | inf s =>
    cases b with
    | nan => rfl
    | inf t => cases s <;> cases t <;> rfl
    | fin t m e => cases s <;> rfl
  | fin s m e =>
    cases b with
    | nan => rfl
    | inf t => cases t <;> rfl
    | fin t n f =>
      have h1 : val (fin (!s) m e) = - val (fin s m e) := by
        cases s <;> simp [val]
      have h2 : val (fin (!t) n f) = - val (fin t n f) := by
        cases t <;> simp [val]
      show le (fin (!s) m e) (fin (!t) n f) = le (fin t n f) (fin s m e)
      rw [Bool.eq_iff_iff, F64.le_fin_val, F64.le_fin_val, h1, h2]
      exact neg_le_neg_iff

/-- Rounding with the opposite sign is the negation. -/
theorem F64.roundQ_not (s : Bool) (n d : Nat) : roundQ (!s) n d = neg (roundQ s n d) := by
  unfold roundQ
  split_ifs
  · rfl
  · simp only [roundAt]
    split_ifs <;> rfl

/-- The signed rational of a zero numerator. -/
theorem F64.sval_zero (s : Bool) (d : Nat) : sval s 0 d = 0 := by
  simp [sval]

/-- Rounding is monotone on signed rationals. -/
theorem F64.le_roundQ (s1 : Bool) (n1 d1 : Nat) (s2 : Bool) (n2 d2 : Nat)
    (hd1 : d1 ≠ 0) (hd2 : d2 ≠ 0) (h : sval s1 n1 d1 ≤ sval s2 n2 d2) :
    le (roundQ s1 n1 d1) (roundQ s2 n2 d2) = true := by
  have hd1q : (0 : ℚ) < d1 := by exact_mod_cast Nat.pos_of_ne_zero hd1
  have hd2q : (0 : ℚ) < d2 := by exact_mod_cast Nat.pos_of_ne_zero hd2
  have hpos : ∀ (a b c d : Nat), b ≠ 0 → d ≠ 0 → (a : ℚ) / b ≤ (c : ℚ) / d →
      le (roundQ false a b) (roundQ false c d) = true := by
    intro a b c d hb hd' hq
    have hbq : (0 : ℚ) < b := by exact_mod_cast Nat.pos_of_ne_zero hb
    have hdq : (0 : ℚ) < d := by exact_mod_cast Nat.pos_of_ne_zero hd'
    rw [div_le_div_iff₀ hbq hdq] at hq
    exact F64.le_roundQ_pos a b c d hb hd' (by exact_mod_cast hq)
  have hneg : ∀ (a b c d : Nat), b ≠ 0 → d ≠ 0 → (c : ℚ) / d ≤ (a : ℚ) / b →
      le (roundQ true a b) (roundQ true c d) = true := by
    intro a b c d hb hd' hq
    have e1 : roundQ true a b = neg (roundQ false a b) := F64.roundQ_not false a b
    have e2 : roundQ true c d = neg (roundQ false c d) := F64.roundQ_not false c d
    rw [e1, e2, F64.le_neg_neg]
    exact hpos c d a b hd' hb hq
  cases s1 <;> cases s2
  · apply hpos _ _ _ _ hd1 hd2
    simpa [sval] using h
  · -- a non-negative rational below a non-positive one: both are zero
    have h1 : (0 : ℚ) ≤ (n1 : ℚ) / d1 := by positivity
    have h2 : (0 : ℚ) ≤ (n2 : ℚ) / d2 := by positivity
    simp only [sval, Bool.false_eq_true, if_false, if_true, one_mul, neg_one_mul, neg_div] at h
    have hz1 : (n1 : ℚ) / d1 = 0 := by linarith
    have hz2 : (n2 : ℚ) / d2 = 0 := by linarith
    have hn1 : n1 = 0 := by
      rcases div_eq_zero_iff.mp hz1 with h0 | h0
      · exact_mod_cast h0
      · exact absurd h0 (ne_of_gt hd1q)
    have hn2 : n2 = 0 := by
      rcases div_eq_zero_iff.mp hz2 with h0 | h0
      · exact_mod_cast h0
      · exact absurd h0 (ne_of_gt hd2q)
    subst hn1; subst hn2
    simp only [roundQ, if_true]
    decide
  · have a1 : le (roundQ true n1 d1) (roundQ true 0 1) = true := by
      apply hneg _ _ _ _ hd1 one_ne_zero
      have : (0 : ℚ) ≤ (n1 : ℚ) / d1 := by positivity
      simpa using this
    have a2 : le (roundQ true 0 1) (roundQ false 0 1) = true := by decide
    have a3 : le (roundQ false 0 1) (roundQ false n2 d2) = true := by
      apply hpos _ _ _ _ one_ne_zero hd2
      have : (0 : ℚ) ≤ (n2 : ℚ) / d2 := by positivity
      simpa using this
    exact F64.le_chain _ _ _ (F64.le_chain _ _ _ a1 a2) a3
  · apply hneg _ _ _ _ hd1 hd2
    simp only [sval, if_true, neg_one_mul, neg_div] at h
    linarith

/-- The product of two finite Numbers is the rounding of the product of values. -/
theorem F64.mul_spec (s1 : Bool) (m1 : Nat) (e1 : Int) (s2 : Bool) (m2 : Nat) (e2 : Int) :
    ∃ (n d : Nat), d ≠ 0
      ∧ fin s1 m1 e1 * fin s2 m2 e2 = roundQ (xor s1 s2) n d
      ∧ sval (xor s1 s2) n d = val (fin s1 m1 e1) * val (fin s2 m2 e2) := by
  refine ⟨m1 * m2 * 2 ^ (e1 + e2).toNat, 2 ^ (-(e1 + e2)).toNat, by positivity, rfl, ?_⟩
  have hsplit := F64.two_zpow_split (e1 + e2)
  have hadd : (2 : ℚ) ^ (e1 + e2) = (2 : ℚ) ^ e1 * (2 : ℚ) ^ e2 := zpow_add₀ (by norm_num) _ _
  have key : ∀ c : ℚ, c * ((m1 * m2 * 2 ^ (e1 + e2).toNat : Nat) : ℚ)
      / ((2 ^ (-(e1 + e2)).toNat : Nat) : ℚ) = c * (m1 * m2 * ((2 : ℚ) ^ e1 * (2 : ℚ) ^ e2)) := by
    intro c
    push_cast
    rw [← hadd, hsplit]
    ring
  unfold sval
  rw [key, F64.val_fin, F64.val_fin]
  cases s1 <;> cases s2 <;>
    simp only [Bool.xor_false, Bool.xor_true, Bool.not_false, Bool.not_true,
      Bool.false_eq_true, if_false, if_true] <;> ring

/-- The sum of two finite Numbers is the rounding of the sum of values. -/
theorem F64.add_spec (s1 : Bool) (m1 : Nat) (e1 : Int) (s2 : Bool) (m2 : Nat) (e2 : Int) :
    ∃ (s : Bool) (n d : Nat), d ≠ 0
      ∧ fin s1 m1 e1 + fin s2 m2 e2 = roundQ s n d
      ∧ sval s n d = val (fin s1 m1 e1) + val (fin s2 m2 e2) := by
  have k1 : (e1 - min e1 e2).toNat = (e1 + (-(min e1 e2))).toNat := by congr 1
  have k2 : (e2 - min e1 e2).toNat = (e2 + (-(min e1 e2))).toNat := by congr 1
  have c1 := F64.scaled_cast s1 m1 e1 (-(min e1 e2)) (by omega)
  have c2 := F64.scaled_cast s2 m2 e2 (-(min e1 e2)) (by omega)
  rw [← k1] at c1
  rw [← k2] at c2
  have hsplit := F64.two_zpow_split (min e1 e2)
  have hpos : (0 : ℚ) < (2 : ℚ) ^ (min e1 e2) := by positivity
  have hsum : (((scaled s1 m1 (e1 - min e1 e2).toNat
      + scaled s2 m2 (e2 - min e1 e2).toNat : Int)) : ℚ) * (2 : ℚ) ^ (min e1 e2)
      = val (fin s1 m1 e1) + val (fin s2 m2 e2) := by
    push_cast
    rw [c1, c2, zpow_neg]
    field_simp
  by_cases hc : scaled s1 m1 (e1 - min e1 e2).toNat + scaled s2 m2 (e2 - min e1 e2).toNat = 0
  · refine ⟨s1 && s2, 0, 1, one_ne_zero, ?_, ?_⟩
    · show F64.add (fin s1 m1 e1) (fin s2 m2 e2) = _
      simp only [F64.add, hc, if_true, roundQ]
    · rw [F64.sval_zero, ← hsum, hc]
      simp
  · refine ⟨decide (scaled s1 m1 (e1 - min e1 e2).toNat
        + scaled s2 m2 (e2 - min e1 e2).toNat < 0),
      (scaled s1 m1 (e1 - min e1 e2).toNat
        + scaled s2 m2 (e2 - min e1 e2).toNat).natAbs * 2 ^ (min e1 e2).toNat,
      2 ^ (-(min e1 e2)).toNat, by positivity, ?_, ?_⟩
    · show F64.add (fin s1 m1 e1) (fin s2 m2 e2) = _
      simp only [F64.add, hc, if_false]
    · rw [← hsum]
      generalize scaled s1 m1 (e1 - min e1 e2).toNat
        + scaled s2 m2 (e2 - min e1 e2).toNat = c
      have habs : ((c.natAbs : Nat) : ℚ) = |(c : ℚ)| := by
        rw [← Int.cast_abs, ← Int.natCast_natAbs, Int.cast_natCast]
      simp only [sval]
      push_cast
      rw [habs, hsplit]
      by_cases hneg : c < 0
      · have : (c : ℚ) < 0 := by exact_mod_cast hneg
        simp only [hneg, decide_True, if_true]
        rw [abs_of_neg this]
        ring
      · have : (0 : ℚ) ≤ c := by exact_mod_cast (not_lt.mp hneg)
        simp only [hneg, decide_False, Bool.false_eq_true, if_false]
        rw [abs_of_nonneg this]
        ring

/-- A rounding is never NaN. -/
theorem F64.roundQ_not_nan (s : Bool) (n d : Nat) : isNaN (roundQ s n d) = false := by
  rcases F64.roundQ_cases s n d with h | ⟨m, e, h⟩ <;> rw [h] <;> rfl

/-- Every number is at most `Infinity`. -/
theorem F64.le_inf (r : F64) (h : isNaN r = false) : le r (inf false) = true := by
  cases r with
  | nan => simp [isNaN] at h
  | inf s => cases s <;> rfl
  | fin s m e => rfl

/-- Every number is at least `-Infinity`. -/
theorem F64.neg_inf_le (r : F64) (h : isNaN r = false) : le (inf true) r = true := by
  cases r with
  | nan => simp [isNaN] at h
  | inf s => cases s <;> rfl
  | fin s m e => rfl

/-- The sum of two finite Numbers is not NaN. -/
theorem F64.add_fin_not_nan (s1 : Bool) (m1 : Nat) (e1 : Int) (s2 : Bool) (m2 : Nat)
    (e2 : Int) : isNaN (fin s1 m1 e1 + fin s2 m2 e2) = false := by
  obtain ⟨s, n, d, _, h, _⟩ := F64.add_spec s1 m1 e1 s2 m2 e2
  rw [h]
  exact F64.roundQ_not_nan s n d

/-- The product of two finite Numbers is not NaN. -/
theorem F64.mul_fin_not_nan (s1 : Bool) (m1 : Nat) (e1 : Int) (s2 : Bool) (m2 : Nat)
    (e2 : Int) : isNaN (fin s1 m1 e1 * fin s2 m2 e2) = false := by
  obtain ⟨n, d, _, h, _⟩ := F64.mul_spec s1 m1 e1 s2 m2 e2
  rw [h]
  exact F64.roundQ_not_nan _ n d

/-- Addition is commutative. -/
theorem F64.add_comm_num (x y : F64) : x + y = y + x := by
  show F64.add x y = F64.add y x
  cases x with
  | nan => cases y <;> rfl
  | inf s =>
    cases y with
    | nan => rfl
    | inf t => cases s <;> cases t <;> rfl
    | fin t m e => rfl
  | fin s m e =>
    cases y with
    | nan => rfl
    | inf t => rfl
    | fin t n f =>
      simp only [F64.add]
      rw [min_comm f e, add_comm (scaled t n (f - min e f).toNat), Bool.and_comm t s]

/-- Addition of a finite Number is monotone in the other argument. -/
theorem F64.add_mono_right (a x y : F64) (ha : isFinite a = true) (h : le x y = true) :
    le (a + x) (a + y) = true := by
  cases a with
  | nan => simp [isFinite] at ha
  | inf s => simp [isFinite] at ha
  | fin sa ma ea =>
    cases x with
    | nan => simp [le] at h
    | inf s =>
      cases y with
      | nan => simp [le] at h
      | inf t => exact h
      | fin t n f =>
        have hs : s = true := by simpa [le] using h
        subst hs
        exact F64.neg_inf_le _ (F64.add_fin_not_nan _ _ _ _ _ _)
    | fin s m e =>
      cases y with
      | nan => simp [le] at h
      | inf t =>
        have ht : t = false := by simpa [le] using h
        subst ht
        exact F64.le_inf _ (F64.add_fin_not_nan _ _ _ _ _ _)
      | fin t n f =>
        rw [F64.le_fin_val] at h
        obtain ⟨s1, n1, d1, hd1, h1, v1⟩ := F64.add_spec sa ma ea s m e
        obtain ⟨s2, n2, d2, hd2, h2, v2⟩ := F64.add_spec sa ma ea t n f
        rw [h1, h2]
        apply F64.le_roundQ _ _ _ _ _ _ hd1 hd2
        rw [v1, v2]
        linarith

/-- Addition of a finite Number is monotone in the first argument. -/
theorem F64.add_mono_left (a x y : F64) (ha : isFinite a = true) (h : le x y = true) :
    le (x + a) (y + a) = true := by
  rw [F64.add_comm_num x a, F64.add_comm_num y a]
  exact F64.add_mono_right a x y ha h

/-- Subtraction of a finite Number is monotone in the first argument. -/
theorem F64.sub_mono_left (a x y : F64) (ha : isFinite a = true) (h : le x y = true) :
    le (x - a) (y - a) = true := by
  show le (x + neg a) (y + neg a) = true
  apply F64.add_mono_left _ _ _ _ h
  cases a <;> simp [isFinite, neg] at ha ⊢

/-- Multiplication by a finite Number of non-negative value is monotone. -/
theorem F64.mul_mono_nonneg (sa : Bool) (ma : Nat) (ea : Int) (x y : F64)
    (hx : isFinite x = true) (hy : isFinite y = true) (ha : 0 ≤ val (fin sa ma ea))
    (h : le x y = true) : le (fin sa ma ea * x) (fin sa ma ea * y) = true := by
  cases x with
  | nan => simp [isFinite] at hx
  | inf s => simp [isFinite] at hx
  | fin s m e =>
    cases y with
    | nan => simp [isFinite] at hy
    | inf t => simp [isFinite] at hy
    | fin t n f =>
      rw [F64.le_fin_val] at h
      obtain ⟨n1, d1, hd1, h1, v1⟩ := F64.mul_spec sa ma ea s m e
      obtain ⟨n2, d2, hd2, h2, v2⟩ := F64.mul_spec sa ma ea t n f
      rw [h1, h2]
      apply F64.le_roundQ _ _ _ _ _ _ hd1 hd2
      rw [v1, v2]
      exact mul_le_mul_of_nonneg_left h ha

/-- Multiplication by a finite Number of non-positive value is antitone. -/
theorem F64.mul_mono_nonpos (sa : Bool) (ma : Nat) (ea : Int) (x y : F64)
    (hx : isFinite x = true) (hy : isFinite y = true) (ha : val (fin sa ma ea) ≤ 0)
    (h : le x y = true) : le (fin sa ma ea * y) (fin sa ma ea * x) = true := by
  cases x with
  | nan => simp [isFinite] at hx
  | inf s => simp [isFinite] at hx
  | fin s m e =>
    cases y with
    | nan => simp [isFinite] at hy
    | inf t => simp [isFinite] at hy
    | fin t n f =>
      rw [F64.le_fin_val] at h
      obtain ⟨n1, d1, hd1, h1, v1⟩ := F64.mul_spec sa ma ea s m e
      obtain ⟨n2, d2, hd2, h2, v2⟩ := F64.mul_spec sa ma ea t n f
      rw [h1, h2]
      apply F64.le_roundQ _ _ _ _ _ _ hd2 hd1
      rw [v1, v2]
      exact mul_le_mul_of_nonpos_left h ha

/-- A rational that lies on the grid of a double is not changed by rounding. -/
theorem F64.rval_exact (n d M : Nat) (E : Int) (hn : n ≠ 0) (hd : d ≠ 0) (hM : M < 2 ^ 53)
    (hE : -1074 ≤ E) (h : (n : ℚ) = M * (2 : ℚ) ^ E * d) : rval n d = M * (2 : ℚ) ^ E := by
  have hdq : (0 : ℚ) < d := by exact_mod_cast Nat.pos_of_ne_zero hd
  obtain ⟨hlo, _⟩ := F64.floorLog2_spec n d hn hd
  obtain ⟨b1, b2, b3⟩ := F64.rexp_bounds n d
  have hfl : floorLog2 n d < 53 + E := by
    by_contra hc
    push_neg at hc
    have hp : (2 : ℚ) ^ (53 + E) ≤ (2 : ℚ) ^ (floorLog2 n d) :=
      zpow_le_zpow_right₀ (by norm_num) hc
    have h53 : (2 : ℚ) ^ (53 + E) = ((2 ^ 53 : Nat) : ℚ) * (2 : ℚ) ^ E := by
      rw [zpow_add₀ (by norm_num)]; norm_num
    have hMq : (M : ℚ) < ((2 ^ 53 : Nat) : ℚ) := by exact_mod_cast hM
    have hEp : (0 : ℚ) < (2 : ℚ) ^ E := by positivity
    have h1 : (M : ℚ) * (2 : ℚ) ^ E * d < ((2 ^ 53 : Nat) : ℚ) * (2 : ℚ) ^ E * d :=
      mul_lt_mul_of_pos_right (mul_lt_mul_of_pos_right hMq hEp) hdq
    have h2 : (2 : ℚ) ^ (53 + E) * d ≤ (2 : ℚ) ^ (floorLog2 n d) * d :=
      mul_le_mul_of_nonneg_right hp (le_of_lt hdq)
    rw [h53] at h2
    linarith
  have hre : rexp n d ≤ E := by
    rcases b3 with b3 | b3 <;> omega
  have hK : ((M * 2 ^ (E - rexp n d).toNat : Nat) : ℚ) * (2 : ℚ) ^ (rexp n d)
      = M * (2 : ℚ) ^ E := by
    push_cast
    rw [← zpow_natCast, Int.toNat_of_nonneg (by omega), mul_assoc, ← zpow_add₀ (by norm_num)]
    congr 2
    ring
  have hq : rquo n d = M * 2 ^ (E - rexp n d).toNat := by
    apply le_antisymm
    · unfold rquo
      apply F64.rne_le _ _ _ (by positivity)
      rw [F64.grid_le_iff, hK, h]
    · unfold rquo
      apply F64.le_rne _ _ _ (by positivity)
      rw [F64.grid_ge_iff, hK, h]
  unfold rval
  rw [hq, hK]

/-- Rounding a rational that is the value of a double gives a finite Number
with that value. -/
theorem F64.val_roundQ_exact (s : Bool) (n d M : Nat) (E : Int) (hd : d ≠ 0)
    (hM : M < 2 ^ 53) (hE : -1074 ≤ E) (hE2 : E ≤ 971)
    (h : (n : ℚ) = M * (2 : ℚ) ^ E * d) :
    ∃ m e, roundQ s n d = fin s m e ∧ val (fin s m e) = sval s n d := by
  have hdq : (0 : ℚ) < d := by exact_mod_cast Nat.pos_of_ne_zero hd
  by_cases hn : n = 0
  · subst hn
    refine ⟨0, -1074, by simp [roundQ], ?_⟩
    simp [val, sval]
  · have hrv := F64.rval_exact n d M E hn hd hM hE h
    have hlt : rval n d < (2 : ℚ) ^ (1024 : Int) := by
      rw [hrv]
      have hMq : (M : ℚ) < ((2 ^ 53 : Nat) : ℚ) := by exact_mod_cast hM
      have hp : (2 : ℚ) ^ E ≤ (2 : ℚ) ^ (971 : Int) :=
        zpow_le_zpow_right₀ (by norm_num) hE2
      calc (M : ℚ) * (2 : ℚ) ^ E < ((2 ^ 53 : Nat) : ℚ) * (2 : ℚ) ^ E :=
            mul_lt_mul_of_pos_right hMq (by positivity)
        _ ≤ ((2 ^ 53 : Nat) : ℚ) * (2 : ℚ) ^ (971 : Int) :=
            mul_le_mul_of_nonneg_left hp (by positivity)
        _ = (2 : ℚ) ^ (1024 : Int) := by norm_num
    obtain ⟨m, e, hr, hv, _⟩ := (F64.roundQ_spec s n d hn hd).1 hlt
    refine ⟨m, e, hr, ?_⟩
    rw [F64.val_fin, hv, hrv]
    unfold sval
    rw [h]
    field_simp

/-- The fields of a double. -/
theorem F64.isDouble_fin (s : Bool) (m : Nat) (e : Int) (h : isDouble (fin s m e) = true) :
    m < 2 ^ 53 ∧ -1074 ≤ e ∧ e ≤ 971 := by
  simp only [isDouble, Bool.and_eq_true, decide_eq_true_eq] at h
  exact ⟨h.1.1.1, h.1.1.2, h.1.2⟩

/-- Adding a finite Number of value `0` to a double gives a finite Number with
the value of the double. -/
theorem F64.double_add_zero (a x : F64) (ha : isDouble a = true) (hx : isFinite x = true)
    (hx0 : val x = 0) :
    ∃ s m e, a + x = fin s m e ∧ val (fin s m e) = val a := by
  cases a with
  | nan => simp [isDouble] at ha
  | inf s => simp [isDouble] at ha
  | fin sa M E =>
    cases x with
    | nan => simp [isFinite] at hx
    | inf s => simp [isFinite] at hx
    | fin sx mx ex =>
      obtain ⟨hM, hE, hE2⟩ := F64.isDouble_fin sa M E ha
      obtain ⟨s, n, d, hd, hr, hv⟩ := F64.add_spec sa M E sx mx ex
      rw [hx0, add_zero] at hv
      have hdq : (0 : ℚ) < d := by exact_mod_cast Nat.pos_of_ne_zero hd
      have hnd : (n : ℚ) = M * (2 : ℚ) ^ E * d := by
        have habs : |sval s n d| = |val (fin sa M E)| := by rw [hv]
        have h1 : |sval s n d| = (n : ℚ) / d := by
          unfold sval
          cases s
          · simp only [Bool.false_eq_true, if_false, one_mul]
            exact abs_of_nonneg (by positivity)
          · simp only [if_true, neg_one_mul, neg_div, abs_neg]
            exact abs_of_nonneg (by positivity)
        have h2 : |val (fin sa M E)| = (M : ℚ) * (2 : ℚ) ^ E := by
          rw [F64.val_fin]
          cases sa
          · simp only [Bool.false_eq_true, if_false, one_mul]
            exact abs_of_nonneg (by positivity)
          · simp only [if_true, neg_one_mul, abs_neg]
            exact abs_of_nonneg (by positivity)
        rw [h1, h2] at habs
        rw [div_eq_iff (ne_of_gt hdq)] at habs
        exact habs
      obtain ⟨m, e, hr2, hv2⟩ := F64.val_roundQ_exact s n d M E hd hM hE hE2 hnd
      exact ⟨s, m, e, by rw [hr, hr2], by rw [hv2, hv]⟩

/-- A double is at most its sum with a non-negative number. -/
theorem F64.le_add_of_nonneg (a x : F64) (ha : isDouble a = true) (hx : le zero x = true) :
    le a (a + x) = true := by
  have hfin : isFinite a = true := by cases a <;> simp [isDouble, isFinite] at ha ⊢
  have h1 := F64.add_mono_right a zero x hfin hx
  obtain ⟨s, m, e, hr, hv⟩ := F64.double_add_zero a zero ha rfl (by simp [zero, val])
  have h0 : le a (a + zero) = true := by
    rw [hr]
    cases a with
    | nan => simp [isDouble] at ha
    | inf s => simp [isDouble] at ha
    | fin sa M E => rw [F64.le_fin_val, hv]
  exact F64.le_chain _ _ _ h0 h1

/-- The sum of a double with a non-positive number is at most the double. -/
theorem F64.add_le_of_nonpos (a x : F64) (ha : isDouble a = true) (hx : le x zero = true) :
    le (a + x) a = true := by
  have hfin : isFinite a = true := by cases a <;> simp [isDouble, isFinite] at ha ⊢
  have h1 := F64.add_mono_right a x zero hfin hx
  obtain ⟨s, m, e, hr, hv⟩ := F64.double_add_zero a zero ha rfl (by simp [zero, val])
  have h0 : le (a + zero) a = true := by
    rw [hr]
    cases a with
    | nan => simp [isDouble] at ha
    | inf s => simp [isDouble] at ha
    | fin sa M E => rw [F64.le_fin_val, hv]
  exact F64.le_chain _ _ _ h1 h0

/-- The value of `Math.abs` of a finite Number. -/
theorem F64.val_abs (s : Bool) (m : Nat) (e : Int) :
    val (F64.abs (fin s m e)) = |val (fin s m e)| := by
  show val (fin false m e) = |val (fin s m e)|
  rw [F64.val_fin, F64.val_fin]
  cases s
  · simp only [Bool.false_eq_true, if_false, one_mul]
    exact (abs_of_nonneg (by positivity)).symm
  · simp only [Bool.false_eq_true, if_false, if_true, one_mul, neg_one_mul, abs_neg]
    exact (abs_of_nonneg (by positivity)).symm

/-- The value of the literal `0`. -/
theorem F64.val_zero : val zero = 0 := by
  simp [zero, val]

/-- On non-negative numbers `Math.abs` is monotone. -/
theorem F64.abs_mono_nonneg (x y : F64) (hx : le zero x = true) (h : le x y = true) :
    le (F64.abs x) (F64.abs y) = true := by
  cases x with
  | nan => simp [le] at h
  | inf s =>
    have hs : s = false := by cases s <;> simp [le, zero] at hx ⊢
    subst hs
    cases y with
    | nan => simp [le] at h
    | inf t => cases t <;> simp [le] at h ⊢ ; rfl
    | fin t n f => simp [le] at h
  | fin s m e =>
    cases y with
    | nan => simp [le] at h
    | inf t => rfl
    | fin t n f =>
      have hx' : val zero ≤ val (fin s m e) := by
        have := hx
        unfold zero at this
        rw [F64.le_fin_val] at this
        exact this
      rw [F64.val_zero] at hx'
      rw [F64.le_fin_val] at h
      show le (F64.abs (fin s m e)) (F64.abs (fin t n f)) = true
      have e1 : F64.abs (fin s m e) = fin false m e := rfl
      have e2 : F64.abs (fin t n f) = fin false n f := rfl
      have v1 := F64.val_abs s m e
      have v2 := F64.val_abs t n f
      rw [e1] at v1
      rw [e2] at v2
      rw [e1, e2, F64.le_fin_val, v1, v2, abs_of_nonneg hx', abs_of_nonneg (le_trans hx' h)]
      exact h

/-- On non-positive numbers `Math.abs` is antitone. -/
theorem F64.abs_anti_nonpos (x y : F64) (hy : le y zero = true) (h : le x y = true) :
    le (F64.abs y) (F64.abs x) = true := by
  cases y with
  | nan => simp [le] at hy
  | inf t =>
    have ht : t = true := by cases t <;> simp [le, zero] at hy ⊢
    subst ht
    cases x with
    | nan => simp [le] at h
    | inf s => cases s <;> simp [le] at h ⊢ <;> rfl
    | fin s m e => simp [le] at h
  | fin t n f =>
    cases x with
    | nan => simp [le] at h
    | inf s => rfl
    | fin s m e =>
      have hy' : val (fin t n f) ≤ val zero := by
        have := hy
        unfold zero at this
        rw [F64.le_fin_val] at this
        exact this
      rw [F64.val_zero] at hy'
      rw [F64.le_fin_val] at h
      have e1 : F64.abs (fin s m e) = fin false m e := rfl
      have e2 : F64.abs (fin t n f) = fin false n f := rfl
      have v1 := F64.val_abs s m e
      have v2 := F64.val_abs t n f
      rw [e1] at v1
      rw [e2] at v2
      rw [e1, e2, F64.le_fin_val, v1, v2, abs_of_nonpos hy', abs_of_nonpos (le_trans h hy')]
      linarith

/-- A finite Number minus itself is `+0`. -/
theorem F64.sub_self_fin (s : Bool) (m : Nat) (e : Int) : fin s m e - fin s m e = zero := by
  show F64.add (fin s m e) (fin (!s) m e) = zero
  have hc : scaled s m (e - min e e).toNat + scaled (!s) m (e - min e e).toNat = 0 := by
    unfold scaled
    cases s <;> simp
  simp only [F64.add, hc, if_true]
  cases s <;> rfl

/-- Multiplying a finite Number by `0` gives a zero. -/
theorem F64.fin_mul_zero (s : Bool) (m : Nat) (e : Int) :
    fin s m e * zero = fin s 0 (-1074) := by
  show F64.mul (fin s m e) (fin false 0 (-1074)) = fin s 0 (-1074)
  simp [F64.mul, roundQ]

/-- A comparison `<=` followed by `<` gives `<`. -/
theorem F64.lt_chain (a b c : F64) (hab : le a b = true) (hbc : lt b c = true) :
    lt a c = true := by
  cases a with
  | nan => simp [le] at hab
  | inf s =>
    cases b with
    | nan => simp [le] at hab
    | inf t =>
      cases c with
      | nan => simp [lt] at hbc
      | inf u => cases s <;> cases t <;> cases u <;> simp [le, lt] at hab hbc ⊢
      | fin u n f => cases s <;> cases t <;> simp [le, lt] at hab hbc ⊢
    | fin t m e =>
      cases c with
      | nan => simp [lt] at hbc
      | inf u => cases s <;> cases u <;> simp [le, lt] at hab hbc ⊢
      | fin u n f => cases s <;> simp [le, lt] at hab ⊢
  | fin s m e =>
    cases b with
    | nan => simp [le] at hab
    | inf t =>
      cases c with
      | nan => simp [lt] at hbc
      | inf u => cases t <;> cases u <;> simp [le, lt] at hab hbc ⊢
      | fin u n f => cases t <;> simp [le, lt] at hab hbc
    | fin t m2 e2 =>
      cases c with
      | nan => simp [lt] at hbc
      | inf u => cases u <;> simp [lt] at hbc ⊢
      | fin u n f =>
        rw [F64.le_fin_val] at hab
        rw [F64.lt_fin_val] at hbc ⊢
        exact lt_of_le_of_lt hab hbc

/-- A number between `0` and `1` is finite. -/
theorem F64.finite_of_between (x : F64) (h0 : le zero x = true) (h1 : le x one = true) :
    isFinite x = true := by
  cases x with
  | nan => simp [le] at h1
  | inf s => cases s <;> simp [le, zero] at h0 <;> exact absurd h1 (by decide)
  | fin s m e => rfl

/-- Two finite Numbers with the same value have a zero difference. -/
theorem F64.sub_eq_zero_of_val (s1 : Bool) (m1 : Nat) (e1 : Int) (s2 : Bool) (m2 : Nat)
    (e2 : Int) (h : val (fin s1 m1 e1) = val (fin s2 m2 e2)) :
    F64.abs (fin s1 m1 e1 - fin s2 m2 e2) = zero := by
  show F64.abs (F64.add (fin s1 m1 e1) (fin (!s2) m2 e2)) = zero
  have k1 : (e1 - min e1 e2).toNat = (e1 + (-(min e1 e2))).toNat := by congr 1
  have k2 : (e2 - min e1 e2).toNat = (e2 + (-(min e1 e2))).toNat := by congr 1
  have c1 := F64.scaled_cast s1 m1 e1 (-(min e1 e2)) (by omega)
  have c2 := F64.scaled_cast (!s2) m2 e2 (-(min e1 e2)) (by omega)
  rw [← k1] at c1
  rw [← k2] at c2
  have hneg : val (fin (!s2) m2 e2) = - val (fin s2 m2 e2) := by
    cases s2 <;> simp [val]
  have hc : scaled s1 m1 (e1 - min e1 e2).toNat + scaled (!s2) m2 (e2 - min e1 e2).toNat = 0 := by
    have : ((scaled s1 m1 (e1 - min e1 e2).toNat
        + scaled (!s2) m2 (e2 - min e1 e2).toNat : Int) : ℚ) = 0 := by
      push_cast
      rw [c1, c2, hneg, h]
      ring
    exact_mod_cast this
  simp only [F64.add, hc, if_true]
  rfl

/-- Range of `Math.exp` on non-positive arguments, from the range of the
implementation-approximated part. -/
theorem F64.exp_range (approx : F64 → F64)
    (hrange : ∀ x, le x zero = true → le zero (approx x) = true ∧ le (approx x) one = true)
    (x : F64) (hx : le x zero = true) :
    le zero (F64.exp approx x) = true ∧ le (F64.exp approx x) one = true := by
  cases x with
  | nan => simp [le] at hx
  | inf s =>
    cases s
    · simp [le, zero] at hx
    · have h : F64.exp approx (inf true) = zero := rfl
      rw [h]
      exact ⟨by decide, by decide⟩
  | fin s m e =>
    by_cases hm : m = 0
    · simp only [F64.exp, hm, if_true]
      exact ⟨by decide, by decide⟩
    · simp only [F64.exp, hm, if_false]
      exact hrange _ hx

/-- Monotonicity of `Math.exp` on non-positive arguments, from the range and
the monotonicity of the implementation-approximated part. -/
theorem F64.exp_mono (approx : F64 → F64)
    (hrange : ∀ x, le x zero = true → le zero (approx x) = true ∧ le (approx x) one = true)
    (hmono : ∀ x y, le x y = true → le y zero = true → le (approx x) (approx y) = true)
    (x y : F64) (hxy : le x y = true) (hy : le y zero = true) :
    le (F64.exp approx x) (F64.exp approx y) = true := by
  have hx : le x zero = true := F64.le_chain _ _ _ hxy hy
  cases y with
  | nan => simp [le] at hy
  | inf t =>
    cases t
    · simp [le, zero] at hy
    · cases x with
      | nan => simp [le] at hxy
      | inf s =>
        cases s
        · simp [le] at hxy
        · have h : F64.exp approx (inf true) = zero := rfl
          rw [h]
          decide
      | fin s m e => simp [le] at hxy
  | fin t n f =>
    by_cases hn : n = 0
    · have : F64.exp approx (fin t n f) = one := by simp only [F64.exp, hn, if_true]
      rw [this]
      exact (F64.exp_range approx hrange x hx).2
    · have hey : F64.exp approx (fin t n f) = approx (fin t n f) := by
        simp only [F64.exp, hn, if_false]
      rw [hey]
      cases x with
      | nan => simp [le] at hxy
      | inf s =>
        cases s
        · simp [le] at hxy
        · exact (hrange _ hy).1
      | fin s m e =>
        by_cases hm : m = 0
        · exfalso
          have h1 := hxy
          have h2 := hy
          unfold zero at h2
          rw [F64.le_fin_val] at h1 h2
          have v0 : val (fin false 0 (-1074)) = 0 := by simp [val]
          have vx : val (fin s m e) = 0 := by simp [val, hm]
          rw [vx] at h1
          rw [v0] at h2
          have vy : val (fin t n f) = 0 := le_antisymm h2 h1
          rw [F64.val_fin] at vy
          have hp : (0 : ℚ) < (2 : ℚ) ^ f := by positivity
          cases t <;> simp at vy <;> exact absurd vy (by
            intro h
            rcases h with h | h
            · exact hn h
            · exact absurd h (ne_of_gt hp))
        · have hex : F64.exp approx (fin s m e) = approx (fin s m e) := by
            simp only [F64.exp, hm, if_false]
          rw [hex]
          exact hmono _ _ hxy hy

/-- A Number above `0` is `Infinity` or finite with a positive value. -/
theorem F64.pos_cases (k : F64) (hk : lt zero k = true) :
    k = inf false ∨ ∃ m e, k = fin false m e ∧ m ≠ 0 := by
  cases k with
  | nan => simp [lt, zero] at hk
  | inf s => cases s <;> simp [lt, zero] at hk ⊢
  | fin s m e =>
    right
    unfold zero at hk
    rw [F64.lt_fin_val] at hk
    have v0 : val (fin false 0 (-1074)) = 0 := by simp [val]
    rw [v0, F64.val_fin] at hk
    have hp : (0 : ℚ) ≤ (m : ℚ) * (2 : ℚ) ^ e := by positivity
    cases s
    · refine ⟨m, e, rfl, ?_⟩
      rintro rfl
      simp at hk
    · exfalso
      simp only [if_true, neg_one_mul] at hk
      linarith

/-- For finite `k > 0` and `t >= 0` the argument `-k * t` of `Math.exp` is at
most `0`. -/
theorem F64.neg_mul_nonpos (k t : F64) (hk : lt zero k = true) (hkf : isFinite k = true)
    (ht : le zero t = true) : le (-k * t) zero = true := by
  rcases F64.pos_cases k hk with rfl | ⟨m, e, rfl, hm⟩
  · simp [isFinite] at hkf
  · have hv : val (fin true m e) ≤ 0 := by
      rw [F64.val_fin]
      have : (0 : ℚ) ≤ (m : ℚ) * (2 : ℚ) ^ e := by positivity
      simp only [if_true, neg_one_mul]
      linarith
    cases t with
    | nan => simp [le, zero] at ht
    | inf s =>
      cases s
      · show le (F64.mul (fin true m e) (inf false)) zero = true
        simp only [F64.mul, hm, if_false]
        decide
      · simp [le, zero] at ht
    | fin s n f =>
      have h1 := F64.mul_mono_nonpos true m e zero (fin s n f) rfl rfl hv ht
      have h2 : fin true m e * zero = fin true 0 (-1074) := F64.fin_mul_zero true m e
      rw [h2] at h1
      exact F64.le_chain _ _ _ h1 (by decide)

/-- For finite `k > 0` the argument `-k * t` of `Math.exp` is antitone in `t >= 0`. -/
theorem F64.neg_mul_anti (k t1 t2 : F64) (hk : lt zero k = true) (hkf : isFinite k = true)
    (ht1 : le zero t1 = true) (h12 : le t1 t2 = true) : le (-k * t2) (-k * t1) = true := by
  rcases F64.pos_cases k hk with rfl | ⟨m, e, rfl, hm⟩
  · simp [isFinite] at hkf
  · have hv : val (fin true m e) ≤ 0 := by
      rw [F64.val_fin]
      have : (0 : ℚ) ≤ (m : ℚ) * (2 : ℚ) ^ e := by positivity
      simp only [if_true, neg_one_mul]
      linarith
    cases t1 with
    | nan => simp [le, zero] at ht1
    | inf s =>
      cases s
      · cases t2 with
        | nan => simp [le] at h12
        | inf u =>
          cases u
          · show le (F64.mul (fin true m e) (inf false)) (F64.mul (fin true m e) (inf false)) = true
            simp only [F64.mul, hm, if_false]
            decide
          · simp [le] at h12
        | fin u n f => simp [le] at h12
      · simp [le, zero] at ht1
    | fin s n f =>
      cases t2 with
      | nan => simp [le] at h12
      | inf u =>
        cases u
        · have e1 : (-(fin false m e) : F64) * inf false = inf true := by
            show F64.mul (fin true m e) (inf false) = inf true
            simp only [F64.mul, hm, if_false]
            rfl
          rw [e1]
          exact F64.neg_inf_le _ (F64.mul_fin_not_nan _ _ _ _ _ _)
        · simp [le] at h12
      | fin u n2 f2 =>
        exact F64.mul_mono_nonpos true m e (fin s n f) (fin u n2 f2) rfl rfl hv h12

/-- The decay lemma on doubles: for a double `tenv`, a finite difference `d`
and decay factors `0 <= e2 <= e1 <= 1`, the value `tenv + d * e2` lies between
`tenv` and `tenv + d * e1`, and its distance to `tenv` is the smaller one. -/
theorem cooling_core (tenv d e1 e2 : F64) (htenv : isDouble tenv = true)
    (hd : isFinite d = true) (h0 : le zero e2 = true) (h12 : le e2 e1 = true)
    (h1 : le e1 one = true) :
    (le zero d = true →
      le (tenv + d * e2) (tenv + d * e1) = true ∧ le tenv (tenv + d * e2) = true)
    ∧ (le d zero = true →
      le (tenv + d * e1) (tenv + d * e2) = true ∧ le (tenv + d * e2) tenv = true)
    ∧ le (F64.abs (tenv + d * e2 - tenv)) (F64.abs (tenv + d * e1 - tenv)) = true := by
  have hfe2 : isFinite e2 = true :=
    F64.finite_of_between e2 h0 (F64.le_chain _ _ _ h12 h1)
  have hfe1 : isFinite e1 = true :=
    F64.finite_of_between e1 (F64.le_chain _ _ _ h0 h12) h1
  have hft : isFinite tenv = true := by
    cases tenv <;> simp [isDouble, isFinite] at htenv ⊢
  cases d with
  | nan => simp [isFinite] at hd
  | inf s => simp [isFinite] at hd
  | fin sd md ed =>
    have hz : fin sd md ed * zero = fin sd 0 (-1074) := F64.fin_mul_zero sd md ed
    have hself : tenv - tenv = zero := by
      cases tenv with
      | nan => simp [isFinite] at hft
      | inf s => simp [isFinite] at hft
      | fin s m e => exact F64.sub_self_fin s m e
    -- the two sign cases
    have hpos : le zero (fin sd md ed) = true →
        le (tenv + fin sd md ed * e2) (tenv + fin sd md ed * e1) = true
        ∧ le tenv (tenv + fin sd md ed * e2) = true
        ∧ le (F64.abs (tenv + fin sd md ed * e2 - tenv))
            (F64.abs (tenv + fin sd md ed * e1 - tenv)) = true := by
      intro hdz
      have hv : 0 ≤ val (fin sd md ed) := by
        have := hdz
        unfold zero at this
        rw [F64.le_fin_val] at this
        simpa [val] using this
      have hp21 := F64.mul_mono_nonneg sd md ed e2 e1 hfe2 hfe1 hv h12
      have hp0 := F64.mul_mono_nonneg sd md ed zero e2 rfl hfe2 hv h0
      rw [hz] at hp0
      have hp2 : le zero (fin sd md ed * e2) = true :=
        F64.le_chain _ _ _ (by cases sd <;> decide) hp0
      have hT21 := F64.add_mono_right tenv _ _ hft hp21
      have hT2 := F64.le_add_of_nonneg tenv _ htenv hp2
      refine ⟨hT21, hT2, ?_⟩
      have hs21 := F64.sub_mono_left tenv _ _ hft hT21
      have hs2 := F64.sub_mono_left tenv _ _ hft hT2
      rw [hself] at hs2
      exact F64.abs_mono_nonneg _ _ hs2 hs21
    have hneg : le (fin sd md ed) zero = true →
        le (tenv + fin sd md ed * e1) (tenv + fin sd md ed * e2) = true
        ∧ le (tenv + fin sd md ed * e2) tenv = true
        ∧ le (F64.abs (tenv + fin sd md ed * e2 - tenv))
            (F64.abs (tenv + fin sd md ed * e1 - tenv)) = true := by
      intro hdz
      have hv : val (fin sd md ed) ≤ 0 := by
        have := hdz
        unfold zero at this
        rw [F64.le_fin_val] at this
        simpa [val] using this
      have hp12 := F64.mul_mono_nonpos sd md ed e2 e1 hfe2 hfe1 hv h12
      have hp0 := F64.mul_mono_nonpos sd md ed zero e2 rfl hfe2 hv h0
      rw [hz] at hp0
      have hp2 : le (fin sd md ed * e2) zero = true :=
        F64.le_chain _ _ _ hp0 (by cases sd <;> decide)
      have hT12 := F64.add_mono_right tenv _ _ hft hp12
      have hT2 := F64.add_le_of_nonpos tenv _ htenv hp2
      refine ⟨hT12, hT2, ?_⟩
      have hs12 := F64.sub_mono_left tenv _ _ hft hT12
      have hs2 := F64.sub_mono_left tenv _ _ hft hT2
      rw [hself] at hs2
      exact F64.abs_anti_nonpos _ _ hs2 hs12
    refine ⟨fun h => ⟨(hpos h).1, (hpos h).2.1⟩, fun h => ⟨(hneg h).1, (hneg h).2.1⟩, ?_⟩
    -- the difference has a sign
    have htot : le zero (fin sd md ed) = true ∨ le (fin sd md ed) zero = true := by
      unfold zero
      rw [F64.le_fin_val, F64.le_fin_val]
      exact le_total _ _
    rcases htot with h | h
    · exact (hpos h).2.2
    · exact (hneg h).2.2

/-- A finite difference has finite operands. -/
theorem F64.finite_of_sub (a b : F64) (h : isFinite (a - b) = true) :
    isFinite a = true ∧ isFinite b = true := by
  have h2 : isFinite (F64.add a (F64.neg b)) = true := h
  cases a with
  | nan => cases b <;> simp [F64.add, F64.neg, isFinite] at h2
  | inf s =>
    cases b with
    | nan => simp [F64.add, F64.neg, isFinite] at h2
    | inf t => cases s <;> cases t <;> simp [F64.add, F64.neg, isFinite] at h2
    | fin t m e => simp [F64.add, F64.neg, isFinite] at h2
  | fin s m e =>
    cases b with
    | nan => simp [F64.add, F64.neg, isFinite] at h2
    | inf t => simp [F64.add, F64.neg, isFinite] at h2
    | fin t n f => exact ⟨rfl, rfl⟩

/-- The sign of the difference `t0 - tenv` from the order of `t0` and `tenv`. -/
theorem F64.sub_sign (t0 tenv : F64) (hfin : isFinite (t0 - tenv) = true) :
    (le tenv t0 = true → le zero (t0 - tenv) = true)
    ∧ (le t0 tenv = true → le (t0 - tenv) zero = true) := by
  have hft : isFinite tenv = true := (F64.finite_of_sub t0 tenv hfin).2
  have hself : tenv - tenv = zero := by
    cases tenv with
    | nan => simp [isFinite] at hft
    | inf s => simp [isFinite] at hft
    | fin s m e => exact F64.sub_self_fin s m e
  constructor
  · intro h
    have := F64.sub_mono_left tenv _ _ hft h
    rwa [hself] at this
  · intro h
    have := F64.sub_mono_left tenv _ _ hft h
    rwa [hself] at this

/-- Every finite result of the rounding `roundQ` is a double in canonical form. -/
theorem F64.isDouble_roundQ (s : Bool) (n d : Nat) (hd : d ≠ 0)
    (hf : isFinite (roundQ s n d) = true) : isDouble (roundQ s n d) = true := by
  by_cases hn : n = 0
  · simp [roundQ, hn, isDouble]
  · have hq53 := F64.rquo_le n d hn hd
    obtain ⟨hb1, hb2, hb3⟩ := F64.rexp_bounds n d
    have hr : roundQ s n d
        = if 971 < (if rquo n d = 2 ^ 53 then rexp n d + 1 else rexp n d) then inf s
          else fin s (if rquo n d = 2 ^ 53 then 2 ^ 52 else rquo n d)
            (if rquo n d = 2 ^ 53 then rexp n d + 1 else rexp n d) := by
      simp only [roundQ, if_neg hn, roundAt, rquo, rexp, rne]
    rw [hr] at hf ⊢
    by_cases hov : 971 < (if rquo n d = 2 ^ 53 then rexp n d + 1 else rexp n d)
    · rw [if_pos hov] at hf
      simp [isFinite] at hf
    · rw [if_neg hov]
      simp only [isDouble, Bool.and_eq_true, Bool.or_eq_true, decide_eq_true_eq]
      by_cases h53 : rquo n d = 2 ^ 53
      · simp only [h53, if_true] at hov ⊢
        refine ⟨⟨⟨by norm_num, by omega⟩, by omega⟩, Or.inl (le_refl _)⟩
      · simp only [h53, if_false] at hov ⊢
        refine ⟨⟨⟨by omega, hb1⟩, by omega⟩, ?_⟩
        rcases hb3 with h3 | h3
        · exact Or.inr h3
        · exact Or.inl (F64.le_rquo n d hn hd h3)

/-- For finite `k` the factor `Math.exp(-k * 0)` is exactly `1`. -/
theorem F64.exp_neg_mul_zero (approx : F64 → F64) (k : F64) (hk : isFinite k = true) :
    F64.exp approx (-k * zero) = one := by
  cases k with
  | nan => simp [isFinite] at hk
  | inf s => simp [isFinite] at hk
  | fin s m e =>
    show F64.exp approx (fin (!s) m e * zero) = one
    rw [F64.fin_mul_zero]
    simp [F64.exp]

/-- For `k > 0` the factor `Math.exp(-k * Infinity)` is exactly `+0`. -/
theorem F64.exp_neg_mul_inf (approx : F64 → F64) (k : F64) (hk : lt zero k = true) :
    F64.exp approx (-k * inf false) = zero := by
  rcases F64.pos_cases k hk with rfl | ⟨m, e, rfl, hm⟩
  · rfl
  · have e1 : (-(fin false m e) : F64) * inf false = inf true := by
      show F64.mul (fin true m e) (inf false) = inf true
      simp only [F64.mul, hm, if_false]
      rfl
    rw [e1]
    rfl

/-- On doubles, between two times `0 <= t1 <= t2` the computed temperature moves
toward `tenv`, for a double `tenv`, a finite difference `t0 - tenv`, a finite
`k > 0` and a `Math.exp` that is monotone with values in `[0, 1]` on arguments
at most `0`. -/
theorem calculateTemperatureAtTime_decay (approx : F64 → F64)
    (hrange : ∀ x, le x zero = true → le zero (approx x) = true ∧ le (approx x) one = true)
    (hmono : ∀ x y, le x y = true → le y zero = true → le (approx x) (approx y) = true)
    (t0 tenv k t1 t2 : F64) (htenv : isDouble tenv = true)
    (hd : isFinite (t0 - tenv) = true) (hk : lt zero k = true) (hkf : isFinite k = true)
    (ht1 : le zero t1 = true) (h12 : le t1 t2 = true) :
    le (F64.abs (calculateTemperatureAtTime (F64.exp approx) t0 tenv k t2 - tenv))
        (F64.abs (calculateTemperatureAtTime (F64.exp approx) t0 tenv k t1 - tenv)) = true
    ∧ (le tenv t0 = true →
        le (calculateTemperatureAtTime (F64.exp approx) t0 tenv k t2)
            (calculateTemperatureAtTime (F64.exp approx) t0 tenv k t1) = true
        ∧ le tenv (calculateTemperatureAtTime (F64.exp approx) t0 tenv k t2) = true)
    ∧ (le t0 tenv = true →
        le (calculateTemperatureAtTime (F64.exp approx) t0 tenv k t1)
            (calculateTemperatureAtTime (F64.exp approx) t0 tenv k t2) = true
        ∧ le (calculateTemperatureAtTime (F64.exp approx) t0 tenv k t2) tenv = true) := by
  have ht2 : le zero t2 = true := F64.le_chain _ _ _ ht1 h12
  have hx1 := F64.neg_mul_nonpos k t1 hk hkf ht1
  have hx2 := F64.neg_mul_nonpos k t2 hk hkf ht2
  have hx21 := F64.neg_mul_anti k t1 t2 hk hkf ht1 h12
  have he2 := (F64.exp_range approx hrange _ hx2).1
  have he21 := F64.exp_mono approx hrange hmono _ _ hx21 hx1
  have he1 := (F64.exp_range approx hrange _ hx1).2
  obtain ⟨hp, hn, ha⟩ := cooling_core tenv (t0 - tenv) _ _ htenv hd he2 he21 he1
  obtain ⟨sp, sn⟩ := F64.sub_sign t0 tenv hd
  exact ⟨ha, fun h => hp (sp h), fun h => hn (sn h)⟩

/-- On doubles the computed temperature lies between `tenv` and the value
computed at `t = 0`, for a double `tenv`, a finite difference `t0 - tenv`, a
finite `k > 0`, `t >= 0` and a `Math.exp` with values in `[0, 1]` on arguments
at most `0`. -/
theorem calculateTemperatureAtTime_bounded (approx : F64 → F64)
    (hrange : ∀ x, le x zero = true → le zero (approx x) = true ∧ le (approx x) one = true)
    (t0 tenv k t : F64) (htenv : isDouble tenv = true)
    (hd : isFinite (t0 - tenv) = true) (hk : lt zero k = true) (hkf : isFinite k = true)
    (ht : le zero t = true) :
    (le tenv t0 = true →
        le tenv (calculateTemperatureAtTime (F64.exp approx) t0 tenv k t) = true
        ∧ le (calculateTemperatureAtTime (F64.exp approx) t0 tenv k t)
            (calculateTemperatureAtTime (F64.exp approx) t0 tenv k zero) = true)
    ∧ (le t0 tenv = true →
        le (calculateTemperatureAtTime (F64.exp approx) t0 tenv k zero)
            (calculateTemperatureAtTime (F64.exp approx) t0 tenv k t) = true
        ∧ le (calculateTemperatureAtTime (F64.exp approx) t0 tenv k t) tenv = true) := by
  have hx := F64.neg_mul_nonpos k t hk hkf ht
  obtain ⟨he0, he1⟩ := F64.exp_range approx hrange _ hx
  obtain ⟨hp, hn, _⟩ := cooling_core tenv (t0 - tenv) one _ htenv hd he0 he1 (by decide)
  obtain ⟨sp, sn⟩ := F64.sub_sign t0 tenv hd
  have hz : calculateTemperatureAtTime (F64.exp approx) t0 tenv k zero
      = tenv + (t0 - tenv) * one := by
    unfold calculateTemperatureAtTime
    rw [F64.exp_neg_mul_zero approx k hkf]
  rw [hz]
  exact ⟨fun h => ⟨(hp (sp h)).2, (hp (sp h)).1⟩, fun h => ⟨(hn (sn h)).1, (hn (sn h)).2⟩⟩

/-- On doubles the temperature computed at `t = Infinity` has distance `0` to
`tenv`, for a double `tenv`, a finite difference `t0 - tenv` and `k > 0`,
whatever `Math.exp` does away from its fixed points. -/
theorem calculateTemperatureAtTime_at_inf (approx : F64 → F64) (t0 tenv k : F64)
    (htenv : isDouble tenv = true) (hd : isFinite (t0 - tenv) = true)
    (hk : lt zero k = true) :
    F64.abs (calculateTemperatureAtTime (F64.exp approx) t0 tenv k (inf false) - tenv)
      = zero := by
  unfold calculateTemperatureAtTime
  rw [F64.exp_neg_mul_inf approx k hk]
  generalize t0 - tenv = d at hd
  cases d with
  | nan => simp [isFinite] at hd
  | inf s => simp [isFinite] at hd
  | fin sd md ed =>
    rw [F64.fin_mul_zero]
    obtain ⟨s, m, e, hr, hv⟩ := F64.double_add_zero tenv (fin sd 0 (-1074)) htenv rfl
      (by simp [val])
    rw [hr]
    cases tenv with
    | nan => simp [isDouble] at htenv
    | inf u => simp [isDouble] at htenv
    | fin u n f => exact F64.sub_eq_zero_of_val s m e u n f hv

/-- The sample behaviour of `Math.exp` has values in `[0, 1]`. -/
theorem sampleApprox_range (x : F64) :
    le zero (sampleApprox x) = true ∧ le (sampleApprox x) one = true := by
  unfold sampleApprox
  split_ifs
  · exact ⟨by decide, by decide⟩
  · exact ⟨by decide, by decide⟩

/-- The sample behaviour of `Math.exp` is monotone. -/
theorem sampleApprox_mono (x y : F64) (h : le x y = true) :
    le (sampleApprox x) (sampleApprox y) = true := by
  unfold sampleApprox
  by_cases hy : le y (-(ofNat 1)) = true
  · have hx : le x (-(ofNat 1)) = true := F64.le_chain _ _ _ h hy
    rw [if_pos hx, if_pos hy]
    decide
  · rw [if_neg hy]
    split_ifs
    · decide
    · decide

/-! ## Validation: the errors list -/

/-- The `errors` list as the concatenation of the four conditional pushes. -/
theorem getInputValues_errors (t0 tenv k t : F64) :
    (getInputValues t0 tenv k t).errors =
      (if isNaN t0 then [msgT0] else []) ++ (if isNaN tenv then [msgTenv] else [])
        ++ (if isNaN k || le k zero then [msgK] else [])
        ++ (if isNaN t || lt t zero then [msgT] else []) := by
  simp only [getInputValues]
  split_ifs <;> simp

/-- Membership after `classList.add`. -/
theorem mem_classListAdd (l : List String) (token c : String) :
    c ∈ classListAdd l token ↔ c ∈ l ∨ c = token := by
  unfold classListAdd
  split_ifs with h
  · constructor
    · intro hc; exact Or.inl hc
    · rintro (hc | hc)
      · exact hc
      · rw [hc]; exact h
  · simp

/-- Membership after `classList.remove`. -/
theorem mem_classListRemove (l tokens : List String) (c : String) :
    c ∈ classListRemove l tokens ↔ c ∈ l ∧ c ∉ tokens := by
  simp [classListRemove]

/-- On an empty value `validateInput` only removes the two tags. -/
theorem validateInput_empty (parseFloat : String → F64) (id : String) (cls : List String) :
    (validateInput parseFloat { id := id, value := "", classList := cls }).classList
      = classListRemove cls ["valid", "invalid"] := by
  simp [validateInput]

/-- On a non-empty value `validateInput` adds `valid` or `invalid` according to
the value of `isValid` computed by the `switch`. -/
theorem validateInput_tags (parseFloat : String → F64) (id raw : String) (cls : List String)
    (hraw : raw ≠ "") (ok : Bool)
    (hok : (if id = "t0" ∨ id = "tenv" ∨ id = "t" then
        (if id = "t" ∧ lt (parseFloat raw) zero = true then false else !isNaN (parseFloat raw))
      else if id = "k" then !isNaN (parseFloat raw) && lt zero (parseFloat raw)
      else true) = ok) :
    ("valid" ∈ (validateInput parseFloat { id := id, value := raw, classList := cls }).classList
      ↔ ok = true)
    ∧ ("invalid" ∈ (validateInput parseFloat { id := id, value := raw, classList := cls }).classList
      ↔ ok = false) := by
  simp only [validateInput, hraw, if_false]
  rw [hok]
  cases ok <;> simp [mem_classListAdd, mem_classListRemove]

/-! ## Validator: acceptance -/

/-- C5: `getInputValues` returns an empty `errors` list exactly when `t0`,
`tenv`, `k` and `t` are all numbers, `k > 0` and `t >= 0`, read on the returned
`values`, which are the four parsed values; `k = 0`, `k = -1` and `t = -1` are
rejected whatever the other fields are, and `k = 0.05` with `t = 0` is accepted. -/
theorem getInputValues_errors_nil_iff (t0 tenv k t : F64) :
    ((getInputValues t0 tenv k t).errors = [] ↔
      (isNaN (getInputValues t0 tenv k t).values.t0 = false
        ∧ isNaN (getInputValues t0 tenv k t).values.tenv = false
        ∧ isNaN (getInputValues t0 tenv k t).values.k = false
        ∧ isNaN (getInputValues t0 tenv k t).values.t = false
        ∧ lt zero (getInputValues t0 tenv k t).values.k = true
        ∧ le zero (getInputValues t0 tenv k t).values.t = true))
    ∧ (getInputValues t0 tenv k t).values.t0 = t0
    ∧ (getInputValues t0 tenv k t).values.tenv = tenv
    ∧ (getInputValues t0 tenv k t).values.k = k
    ∧ (getInputValues t0 tenv k t).values.t = t
    ∧ (getInputValues t0 tenv zero t).errors ≠ []
    ∧ (getInputValues t0 tenv (-(ofNat 1)) t).errors ≠ []
    ∧ (getInputValues t0 tenv k (-(ofNat 1))).errors ≠ []
    ∧ (getInputValues (ofNat 100) (ofNat 20) (ofRatio false 5 100) zero).errors = [] := by
  refine ⟨?_, rfl, rfl, rfl, rfl, ?_, ?_, ?_, by decide⟩
  · rw [getInputValues_errors]
    show _ ↔ (isNaN t0 = false ∧ isNaN tenv = false ∧ isNaN k = false ∧ isNaN t = false
        ∧ lt zero k = true ∧ le zero t = true)
    cases h0 : isNaN t0 <;> cases h1 : isNaN tenv <;> cases h2 : isNaN k <;>
      cases h3 : isNaN t <;> simp
    · rw [F64.le_eq_not_lt k zero h2 rfl, F64.lt_eq_not_le t zero h3 rfl]
      cases lt zero k <;> cases le zero t <;> simp
  · rw [getInputValues_errors]
    have h : (isNaN zero || le zero zero) = true := by decide
    simp [h]
  · rw [getInputValues_errors]
    have h : (isNaN (-(ofNat 1)) || le (-(ofNat 1)) zero) = true := by decide
    simp [h]
  · rw [getInputValues_errors]
    have h : (isNaN (-(ofNat 1)) || lt (-(ofNat 1)) zero) = true := by decide
    simp [h]

/-! ## Validator: accumulation of messages -/

/-- C6: the `errors` list of `getInputValues` is the list of the four fixed
messages, in the order `t0`, `tenv`, `k`, `t`, restricted to the fields that fail
their rule (`t0`, `tenv`: a number; `k`: a number and `> 0`; `t`: a number and
`>= 0`); its length is the number of failing fields; with four NaN fields it is
the four messages; the `k` message contains "positive" and the `t` message
contains "non-negative". -/
theorem getInputValues_errors_accumulate (t0 tenv k t : F64) :
    (getInputValues t0 tenv k t).errors =
      ([(!isNaN t0, msgT0), (!isNaN tenv, msgTenv),
        (!isNaN k && lt zero k, msgK), (!isNaN t && le zero t, msgT)].filter
          (fun p => !p.1)).map (fun p => p.2)
    ∧ (getInputValues t0 tenv k t).errors.length =
      ([!isNaN t0, !isNaN tenv, !isNaN k && lt zero k, !isNaN t && le zero t].filter
        (fun ok => !ok)).length
    ∧ (getInputValues nan nan nan nan).errors = [msgT0, msgTenv, msgK, msgT]
    ∧ (getInputValues nan nan nan nan).errors.length = 4
    ∧ (∃ a b : String, msgK = a ++ "positive" ++ b)
    ∧ (∃ a b : String, msgT = a ++ "non-negative" ++ b) := by
  have key : (getInputValues t0 tenv k t).errors =
      ([(!isNaN t0, msgT0), (!isNaN tenv, msgTenv),
        (!isNaN k && lt zero k, msgK), (!isNaN t && le zero t, msgT)].filter
          (fun p => !p.1)).map (fun p => p.2) := by
    rw [getInputValues_errors]
    cases h0 : isNaN t0 <;> cases h1 : isNaN tenv <;> cases h2 : isNaN k <;>
      cases h3 : isNaN t <;>
      simp [List.filter, F64.le_eq_not_lt k zero, F64.lt_eq_not_le t zero, h2, h3,
        show isNaN zero = false from rfl] <;>
      cases lt zero k <;> cases le zero t <;> simp
  refine ⟨key, ?_, by decide, by decide,
    ⟨"Cooling constant (k) must be a ", " number", by decide⟩,
    ⟨"Time (t) must be a ", " number", by decide⟩⟩
  rw [key]
  cases (!isNaN t0) <;> cases (!isNaN tenv) <;> cases (!isNaN k && lt zero k) <;>
    cases (!isNaN t && le zero t) <;> rfl

/-! ## The calculation flow -/

/-- C9: seen as a function of the four parsed fields, `calculateTemperature`
shows the errors joined by ". " and never a result when the validator reports an
error; with no error it shows the generic invalid-value message exactly when
`calculateTemperatureAtTime(t0, tenv, k, t)` is not finite, and otherwise shows
the result carrying that temperature and the elapsed time `t`. -/
theorem calculateTemperature_outcome (approx : F64 → F64) (t0 tenv k t : F64) :
    ((getInputValues t0 tenv k t).errors ≠ [] →
      calculateTemperature approx t0 tenv k t =
          Display.displayError (String.intercalate ". " (getInputValues t0 tenv k t).errors)
        ∧ ∀ temperature time,
            calculateTemperature approx t0 tenv k t ≠ Display.displayResult temperature time)
    ∧ ((getInputValues t0 tenv k t).errors = [] →
      (calculateTemperature approx t0 tenv k t = Display.displayError msgInvalid ↔
          isFinite (calculateTemperatureAtTime (F64.exp approx) t0 tenv k t) = false)
        ∧ (isFinite (calculateTemperatureAtTime (F64.exp approx) t0 tenv k t) = true →
            calculateTemperature approx t0 tenv k t =
              Display.displayResult (calculateTemperatureAtTime (F64.exp approx) t0 tenv k t) t)) := by
  constructor
  · intro h
    have hlen : (getInputValues t0 tenv k t).errors.length > 0 :=
      List.length_pos.mpr h
    have heq : calculateTemperature approx t0 tenv k t =
        Display.displayError (String.intercalate ". " (getInputValues t0 tenv k t).errors) := by
      simp only [calculateTemperature, hlen, if_true]
    refine ⟨heq, ?_⟩
    intro temperature time hres
    rw [heq] at hres
    exact Display.noConfusion hres
  · intro h
    have hlen : ¬ (getInputValues t0 tenv k t).errors.length > 0 := by
      rw [h]; simp
    have hv : (getInputValues t0 tenv k t).values = { t0 := t0, tenv := tenv, k := k, t := t } := rfl
    cases hfin : isFinite (calculateTemperatureAtTime (F64.exp approx) t0 tenv k t)
    · simp [calculateTemperature, hlen, hv, hfin]
    · simp [calculateTemperature, hlen, hv, hfin]

/-- Witness of C9 on the sample values of the page (`t0 = 100`, `tenv = 20`,
`k = 0.05`, `t = 30`) and on four NaN fields. -/
theorem calculateTemperature_outcome_witness :
    (getInputValues nan nan nan nan).errors ≠ []
    ∧ calculateTemperature (fun x => x) nan nan nan nan =
        Display.displayError (String.intercalate ". " (getInputValues nan nan nan nan).errors)
    ∧ (getInputValues (ofNat 100) (ofNat 20) (ofRatio false 5 100) (ofNat 30)).errors = []
    ∧ (calculateTemperature (fun x => x) (ofNat 100) (ofNat 20) (ofRatio false 5 100) (ofNat 30)
          = Display.displayError msgInvalid ↔
        isFinite (calculateTemperatureAtTime (F64.exp (fun x => x))
          (ofNat 100) (ofNat 20) (ofRatio false 5 100) (ofNat 30)) = false) :=
  ⟨by decide,
   ((calculateTemperature_outcome (fun x => x) nan nan nan nan).1 (by decide)).1,
   by decide,
   ((calculateTemperature_outcome (fun x => x) (ofNat 100) (ofNat 20) (ofRatio false 5 100)
      (ofNat 30)).2 (by decide)).1⟩

/-! ## Per-field feedback -/

/-- C10: for a non-empty raw value, `validateInput` tags the field `valid`
exactly when `getInputValues` pushes no message for that field on the same
parsed value, and `invalid` exactly when it pushes one, for each of the ids
`t0`, `tenv`, `k`, `t` (the other three fields being arbitrary); for an empty raw
value the field carries neither tag. -/
theorem validateInput_agrees_getInputValues (parseFloat : String → F64)
    (raw : String) (cls : List String) (a b c : F64) :
    (raw ≠ "" →
      (("valid" ∈ (validateInput parseFloat { id := "t0", value := raw, classList := cls }).classList
          ↔ msgT0 ∉ (getInputValues (parseFloat raw) a b c).errors)
        ∧ ("invalid" ∈ (validateInput parseFloat { id := "t0", value := raw, classList := cls }).classList
          ↔ msgT0 ∈ (getInputValues (parseFloat raw) a b c).errors))
      ∧ (("valid" ∈ (validateInput parseFloat { id := "tenv", value := raw, classList := cls }).classList
          ↔ msgTenv ∉ (getInputValues a (parseFloat raw) b c).errors)
        ∧ ("invalid" ∈ (validateInput parseFloat { id := "tenv", value := raw, classList := cls }).classList
          ↔ msgTenv ∈ (getInputValues a (parseFloat raw) b c).errors))
      ∧ (("valid" ∈ (validateInput parseFloat { id := "k", value := raw, classList := cls }).classList
          ↔ msgK ∉ (getInputValues a b (parseFloat raw) c).errors)
        ∧ ("invalid" ∈ (validateInput parseFloat { id := "k", value := raw, classList := cls }).classList
          ↔ msgK ∈ (getInputValues a b (parseFloat raw) c).errors))
      ∧ (("valid" ∈ (validateInput parseFloat { id := "t", value := raw, classList := cls }).classList
          ↔ msgT ∉ (getInputValues a b c (parseFloat raw)).errors)
        ∧ ("invalid" ∈ (validateInput parseFloat { id := "t", value := raw, classList := cls }).classList
          ↔ msgT ∈ (getInputValues a b c (parseFloat raw)).errors)))
    ∧ (∀ id : String,
        "valid" ∉ (validateInput parseFloat { id := id, value := "", classList := cls }).classList
        ∧ "invalid" ∉ (validateInput parseFloat { id := id, value := "", classList := cls }).classList) := by
  have d01 : msgT0 ≠ msgTenv := by decide
  have d02 : msgT0 ≠ msgK := by decide
  have d03 : msgT0 ≠ msgT := by decide
  have d12 : msgTenv ≠ msgK := by decide
  have d13 : msgTenv ≠ msgT := by decide
  have d23 : msgK ≠ msgT := by decide
  constructor
  · intro hraw
    refine ⟨?_, ?_, ?_, ?_⟩
    · have h := validateInput_tags parseFloat "t0" raw cls hraw (!isNaN (parseFloat raw))
        (by simp)
      rw [h.1, h.2, getInputValues_errors]
      cases isNaN (parseFloat raw) <;>
        simp [d01, d02, d03, d12, d13, d23, d01.symm, d02.symm, d03.symm]
    · have h := validateInput_tags parseFloat "tenv" raw cls hraw (!isNaN (parseFloat raw))
        (by simp)
      rw [h.1, h.2, getInputValues_errors]
      cases isNaN (parseFloat raw) <;>
        simp [d01, d02, d03, d12, d13, d23, d01.symm, d02.symm, d03.symm, d12.symm]
    · have h := validateInput_tags parseFloat "k" raw cls hraw
        (!isNaN (parseFloat raw) && lt zero (parseFloat raw)) (by simp)
      rw [h.1, h.2, getInputValues_errors]
      cases hn : isNaN (parseFloat raw)
      · rw [F64.le_eq_not_lt (parseFloat raw) zero hn rfl]
        cases lt zero (parseFloat raw) <;>
          simp [d01, d02, d03, d12, d13, d23, d02.symm, d12.symm, d23.symm]
      · simp [d01, d02, d03, d12, d13, d23, d02.symm, d12.symm, d23.symm]
    · have h := validateInput_tags parseFloat "t" raw cls hraw
        (!isNaN (parseFloat raw) && !lt (parseFloat raw) zero)
        (by cases isNaN (parseFloat raw) <;> cases lt (parseFloat raw) zero <;> simp)
      rw [h.1, h.2, getInputValues_errors]
      cases hn : isNaN (parseFloat raw) <;> cases lt (parseFloat raw) zero <;>
        simp [d01, d02, d03, d12, d13, d23, d03.symm, d13.symm, d23.symm]
  · intro id
    rw [validateInput_empty]
    simp [mem_classListRemove]

/-- Witness of C10 on the raw value `"5"` parsed as `5`, the other fields being
`0`, and an element that carried the tag `invalid` before. -/
theorem validateInput_agrees_getInputValues_witness :
    "5" ≠ ""
    ∧ ("valid" ∈ (validateInput (fun _ => ofNat 5)
          { id := "k", value := "5", classList := ["invalid"] }).classList
        ↔ msgK ∉ (getInputValues zero zero (ofNat 5) zero).errors)
    ∧ ("invalid" ∈ (validateInput (fun _ => ofNat 5)
          { id := "k", value := "5", classList := ["invalid"] }).classList
        ↔ msgK ∈ (getInputValues zero zero (ofNat 5) zero).errors) :=
  ⟨by decide,
    ((validateInput_agrees_getInputValues (fun _ => ofNat 5) "5" ["invalid"] zero zero zero).1
      (by decide)).2.2.1⟩

/-! ## The cooling formula on JavaScript numbers -/

/-- Counterexample to C1 as stated, in three parts. Rounding: for `t0 = 20.1`,
`tenv = 100`, `k = 0.05`, `t = 0` the script returns `20.099999999999994`,
whatever `Math.exp` does away from its fixed points, and that is below both `t0`
and `tenv`. Overflow: for `t0 = Number.MAX_VALUE`, `tenv = -Number.MAX_VALUE`,
`k = 2`, `t = Number.MAX_VALUE` the difference `t0 - tenv` is `Infinity` and the
script returns `NaN`. Infinite `k`: for `t0 = 100`, `tenv = 20`, `k = Infinity`,
`t = 0` the product `-k * t` is `NaN` and the script returns `NaN`. No
comparison with `NaN` holds. -/
theorem calculateTemperatureAtTime_below_both :
    (∀ approx : F64 → F64,
      calculateTemperatureAtTime (F64.exp approx) (ofRatio false 201 10) (ofNat 100)
        (ofRatio false 5 100) zero = fin false 5657647031884184 (-48))
    ∧ lt zero (ofRatio false 5 100) = true
    ∧ le zero zero = true
    ∧ lt (fin false 5657647031884184 (-48)) (ofRatio false 201 10) = true
    ∧ lt (fin false 5657647031884184 (-48)) (ofNat 100) = true
    ∧ (∀ approx : F64 → F64,
        calculateTemperatureAtTime (F64.exp approx) maxValue (-maxValue) (ofNat 2) maxValue
          = nan)
    ∧ maxValue - (-maxValue) = inf false
    ∧ lt zero (ofNat 2) = true
    ∧ le zero maxValue = true
    ∧ (∀ approx : F64 → F64,
        calculateTemperatureAtTime (F64.exp approx) (ofNat 100) (ofNat 20) (inf false) zero
          = nan)
    ∧ lt zero (inf false) = true
    ∧ (∀ a : F64, le a nan = false ∧ le nan a = false) :=
  ⟨fun _ => by rfl, by decide, by decide, by decide, by decide, fun _ => by rfl, by decide,
    by decide, by decide, fun _ => by rfl, by decide,
    fun a => ⟨by cases a <;> rfl, rfl⟩⟩

/-- Counterexample to C2 as stated: for `t0 = 0.1`, `tenv = 20`, `k = 0.05` the
script returns `0.10000000000000142` at `t = 0`, which is not `t0`. -/
theorem calculateTemperatureAtTime_zero_ne_t0 :
    (∀ approx : F64 → F64,
      calculateTemperatureAtTime (F64.exp approx) (ofRatio false 1 10) (ofNat 20)
        (ofRatio false 5 100) zero = fin false 7205759403792896 (-56))
    ∧ ofRatio false 1 10 = fin false 7205759403792794 (-56)
    ∧ fin false 7205759403792896 (-56) ≠ ofRatio false 1 10
    ∧ lt (ofRatio false 1 10) (fin false 7205759403792896 (-56)) = true :=
  ⟨fun _ => by rfl, by decide, by decide, by decide⟩

/-- Counterexample to C3 as stated, in two parts. Overflow: for
`t0 = Number.MAX_VALUE`, `tenv = -Number.MAX_VALUE`, `k = 2`, `t1 = 0`,
`t2 = Number.MAX_VALUE` the script returns `Infinity` at `t1` and `NaN` at `t2`,
so neither `|T(t2) - tenv| <= |T(t1) - tenv|` nor `T(t2) <= T(t1)` nor
`tenv <= T(t2)` holds. Infinite `k`: for `t0 = 100`, `tenv = 20`, `k = Infinity`,
`t1 = 0`, `t2 = 1` the script returns `NaN` at `t1` and `20` at `t2`, so
`|T(t2) - tenv| <= |T(t1) - tenv|` and `T(t2) <= T(t1)` do not hold. -/
theorem calculateTemperatureAtTime_not_monotone :
    (∀ approx : F64 → F64,
      calculateTemperatureAtTime (F64.exp approx) maxValue (-maxValue) (ofNat 2) zero = inf false
      ∧ calculateTemperatureAtTime (F64.exp approx) maxValue (-maxValue) (ofNat 2) maxValue = nan)
    ∧ lt zero (ofNat 2) = true ∧ le zero zero = true ∧ le zero maxValue = true
    ∧ le (-maxValue) maxValue = true
    ∧ le (F64.abs (nan - (-maxValue))) (F64.abs (inf false - (-maxValue))) = false
    ∧ le nan (inf false) = false
    ∧ le (-maxValue) nan = false
    ∧ (∀ approx : F64 → F64,
      calculateTemperatureAtTime (F64.exp approx) (ofNat 100) (ofNat 20) (inf false) zero = nan
      ∧ calculateTemperatureAtTime (F64.exp approx) (ofNat 100) (ofNat 20) (inf false) (ofNat 1)
          = ofNat 20)
    ∧ lt zero (inf false) = true ∧ le zero (ofNat 1) = true
    ∧ le (ofNat 20) (ofNat 100) = true
    ∧ le (F64.abs (ofNat 20 - ofNat 20)) (F64.abs (nan - ofNat 20)) = false
    ∧ le (ofNat 20) nan = false :=
  ⟨fun _ => ⟨by rfl, by rfl⟩, by decide, by decide, by decide, by decide, by decide,
    by decide, by decide, fun _ => ⟨by rfl, by rfl⟩, by decide, by decide, by decide,
    by decide, by decide⟩

/-- With `t0 = Number.MAX_VALUE` and `tenv = -Number.MAX_VALUE` the difference
`t0 - tenv` is `Infinity`, and the script returns `Infinity` or `NaN` at every
time, for every `k` and every behaviour of `Math.exp`. -/
theorem calculateTemperatureAtTime_overflow (exp : F64 → F64) (k t : F64) :
    isFinite (calculateTemperatureAtTime exp maxValue (-maxValue) k t) = false := by
  have hd : maxValue - (-maxValue) = inf false := by decide
  show isFinite (F64.add (-maxValue) (F64.mul (maxValue - (-maxValue)) (exp (-k * t)))) = false
  rw [hd]
  cases exp (-k * t) with
  | nan => rfl
  | inf s => cases s <;> rfl
  | fin s m e =>
    by_cases hm : m = 0
    · subst hm; rfl
    · cases s <;> simp [F64.mul, hm] <;> rfl

/-- Counterexample to C4 as stated: for `t0 = Number.MAX_VALUE`,
`tenv = -Number.MAX_VALUE` and `k = 1` there is no time at which the script
returns a value within `1` of `tenv`. -/
theorem calculateTemperatureAtTime_no_limit :
    ¬ ∃ (approx : F64 → F64) (t : F64),
      lt (F64.abs (calculateTemperatureAtTime (F64.exp approx) maxValue (-maxValue)
        (ofNat 1) t - (-maxValue))) (ofNat 1) = true := by
  rintro ⟨approx, t, h⟩
  have hfin := calculateTemperatureAtTime_overflow (F64.exp approx) (ofNat 1) t
  generalize calculateTemperatureAtTime (F64.exp approx) maxValue (-maxValue) (ofNat 1) t = r
    at h hfin
  cases r with
  | nan => exact absurd h (by decide)
  | inf s => cases s <;> exact absurd h (by decide)
  | fin s m e => exact absurd hfin (by simp [isFinite])

/-! ## The cooling formula in exact arithmetic -/

/-- For `k > 0` and `t ≥ 0` the decay factor `exp(-k t)` is at most `1`. -/
theorem exp_neg_mul_le_one (k t : ℝ) (hk : 0 < k) (ht : 0 ≤ t) : Real.exp (-k * t) ≤ 1 := by
  apply Real.exp_le_one_iff.mpr
  nlinarith

/-- For `k > 0` the decay factor `exp(-k t)` is antitone in `t`. -/
theorem exp_neg_mul_anti (k t1 t2 : ℝ) (hk : 0 < k) (h12 : t1 ≤ t2) :
    Real.exp (-k * t2) ≤ Real.exp (-k * t1) := by
  apply Real.exp_le_exp.mpr
  nlinarith

/-- In exact real arithmetic, for `k > 0` and `t ≥ 0`, the temperature lies
between `t0` and `tenv` inclusive. -/
theorem calculateTemperatureAtTime_real_between (t0 tenv k t : ℝ) (hk : 0 < k) (ht : 0 ≤ t) :
    min t0 tenv ≤ calculateTemperatureAtTime Real.exp t0 tenv k t
    ∧ calculateTemperatureAtTime Real.exp t0 tenv k t ≤ max t0 tenv := by
  have he0 : 0 < Real.exp (-k * t) := Real.exp_pos _
  have he1 : Real.exp (-k * t) ≤ 1 := exp_neg_mul_le_one k t hk ht
  unfold calculateTemperatureAtTime
  rcases le_total t0 tenv with h | h
  · rw [min_eq_left h, max_eq_right h]
    constructor <;> nlinarith
  · rw [min_eq_right h, max_eq_left h]
    constructor <;> nlinarith

/-- C2, amended: in exact real arithmetic, for every `t0`, `tenv` and `k`,
`calculateTemperatureAtTime(t0, tenv, k, 0)` equals `t0`; on JavaScript numbers,
for every finite `k`, the factor `Math.exp(-k * 0)` is exactly `1` and the script
returns `tenv + (t0 - tenv) * 1` as computed in doubles. -/
theorem calculateTemperatureAtTime_zero :
    (∀ t0 tenv k : ℝ, calculateTemperatureAtTime Real.exp t0 tenv k 0 = t0)
    ∧ (∀ (approx : F64 → F64) (t0 tenv k : F64), isFinite k = true →
        F64.exp approx (-k * zero) = one
        ∧ calculateTemperatureAtTime (F64.exp approx) t0 tenv k zero
            = tenv + (t0 - tenv) * one) := by
  constructor
  · intro t0 tenv k
    simp [calculateTemperatureAtTime]
  · intro approx t0 tenv k hk
    have hexp : F64.exp approx (-k * zero) = one := by
      cases k with
      | nan => simp [isFinite] at hk
      | inf s => simp [isFinite] at hk
      | fin s m e =>
        show F64.exp approx (fin (!s) m e * zero) = one
        rw [F64.fin_mul_zero]
        simp [F64.exp]
    refine ⟨hexp, ?_⟩
    unfold calculateTemperatureAtTime
    rw [hexp]

/-- Witness of the amended C2 at the sample values `t0 = 100`, `tenv = 20`,
`k = 0.05`: the script returns `100` at `t = 0`. -/
theorem calculateTemperatureAtTime_zero_witness :
    isFinite (ofRatio false 5 100) = true
    ∧ calculateTemperatureAtTime (F64.exp (fun x => x)) (ofNat 100) (ofNat 20)
        (ofRatio false 5 100) zero = ofNat 20 + (ofNat 100 - ofNat 20) * one
    ∧ ofNat 20 + (ofNat 100 - ofNat 20) * one = ofNat 100 :=
  ⟨by decide,
    ((calculateTemperatureAtTime_zero).2 (fun x => x) (ofNat 100) (ofNat 20)
      (ofRatio false 5 100) (by decide)).2,
    by decide⟩

/-- In exact real arithmetic, for `k > 0` and `0 ≤ t1 ≤ t2`, the temperature
moves monotonically toward `tenv` and stays on the side of `t0`. -/
theorem calculateTemperatureAtTime_real_monotone (t0 tenv k t1 t2 : ℝ) (hk : 0 < k)
    (_h1 : 0 ≤ t1) (h12 : t1 ≤ t2) :
    |calculateTemperatureAtTime Real.exp t0 tenv k t2 - tenv|
        ≤ |calculateTemperatureAtTime Real.exp t0 tenv k t1 - tenv|
    ∧ (tenv ≤ t0 →
        calculateTemperatureAtTime Real.exp t0 tenv k t2
            ≤ calculateTemperatureAtTime Real.exp t0 tenv k t1
          ∧ tenv ≤ calculateTemperatureAtTime Real.exp t0 tenv k t2)
    ∧ (t0 ≤ tenv →
        calculateTemperatureAtTime Real.exp t0 tenv k t1
            ≤ calculateTemperatureAtTime Real.exp t0 tenv k t2
          ∧ calculateTemperatureAtTime Real.exp t0 tenv k t2 ≤ tenv) := by
  have he : Real.exp (-k * t2) ≤ Real.exp (-k * t1) := exp_neg_mul_anti k t1 t2 hk h12
  have hp2 : 0 < Real.exp (-k * t2) := Real.exp_pos _
  have hp1 : 0 < Real.exp (-k * t1) := Real.exp_pos _
  unfold calculateTemperatureAtTime
  refine ⟨?_, ?_, ?_⟩
  · have e2 : tenv + (t0 - tenv) * Real.exp (-k * t2) - tenv
        = (t0 - tenv) * Real.exp (-k * t2) := by ring
    have e1 : tenv + (t0 - tenv) * Real.exp (-k * t1) - tenv
        = (t0 - tenv) * Real.exp (-k * t1) := by ring
    rw [e1, e2, abs_mul, abs_mul, abs_of_pos hp1, abs_of_pos hp2]
    exact mul_le_mul_of_nonneg_left he (abs_nonneg _)
  · intro h
    constructor <;> nlinarith
  · intro h
    constructor <;> nlinarith

/-- In exact real arithmetic the temperature tends to `tenv` as `t → ∞`. -/
theorem calculateTemperatureAtTime_real_tendsto (t0 tenv k : ℝ) (hk : 0 < k) :
    Filter.Tendsto (fun t => calculateTemperatureAtTime Real.exp t0 tenv k t)
      Filter.atTop (nhds tenv) := by
  have h1 : Filter.Tendsto (fun t : ℝ => k * t) Filter.atTop Filter.atTop :=
    Filter.Tendsto.const_mul_atTop hk Filter.tendsto_id
  have h2 : Filter.Tendsto (fun t : ℝ => Real.exp (-(k * t))) Filter.atTop (nhds 0) :=
    Real.tendsto_exp_neg_atTop_nhds_zero.comp h1
  have h3 : Filter.Tendsto (fun t : ℝ => tenv + (t0 - tenv) * Real.exp (-(k * t)))
      Filter.atTop (nhds (tenv + (t0 - tenv) * 0)) :=
    (h2.const_mul (t0 - tenv)).const_add tenv
  simp only [mul_zero, add_zero] at h3
  have hfun : (fun t => calculateTemperatureAtTime Real.exp t0 tenv k t)
      = fun t : ℝ => tenv + (t0 - tenv) * Real.exp (-(k * t)) := by
    funext t
    simp [calculateTemperatureAtTime]
  rw [hfun]
  exact h3

/-- A crude lower bound of `exp 50`. -/
theorem two_pow_fifty_le_exp : (2 : ℝ) ^ 50 ≤ Real.exp 50 := by
  have h2 : (2 : ℝ) ≤ Real.exp 1 := by
    have := Real.add_one_le_exp (1 : ℝ)
    linarith
  calc (2 : ℝ) ^ 50 ≤ (Real.exp 1) ^ 50 := pow_le_pow_left₀ (by norm_num) h2 50
    _ = Real.exp 50 := by
      rw [← Real.exp_nat_mul]
      norm_num

/-- In exact real arithmetic the temperature comes and stays within every
`eps > 0` of `tenv`, and for `t0 = 100`, `tenv = 20`, `k = 0.05`, `t = 1000` it is
within `1e-6` of `20`. -/
theorem calculateTemperatureAtTime_real_limit :
    (∀ t0 tenv k : ℝ, 0 < k → ∀ eps : ℝ, 0 < eps →
      ∃ N : ℝ, ∀ t : ℝ, N ≤ t →
        |calculateTemperatureAtTime Real.exp t0 tenv k t - tenv| < eps)
    ∧ |calculateTemperatureAtTime Real.exp (100 : ℝ) 20 (5 / 100) 1000 - 20| < 1 / 10 ^ 6 := by
  constructor
  · intro t0 tenv k hk eps heps
    have h := calculateTemperatureAtTime_real_tendsto t0 tenv k hk
    rw [Metric.tendsto_atTop] at h
    obtain ⟨N, hN⟩ := h eps heps
    refine ⟨N, fun t ht => ?_⟩
    have := hN t ht
    rwa [Real.dist_eq] at this
  · have hx : calculateTemperatureAtTime Real.exp (100 : ℝ) 20 (5 / 100) 1000 - 20
        = 80 * Real.exp (-50) := by
      unfold calculateTemperatureAtTime
      norm_num
    rw [hx, abs_of_pos (by positivity), Real.exp_neg]
    have h50 := two_pow_fifty_le_exp
    have hpos : (0 : ℝ) < Real.exp 50 := Real.exp_pos _
    rw [show (80 : ℝ) * (Real.exp 50)⁻¹ = 80 / Real.exp 50 by ring, div_lt_iff₀ hpos]
    have : (2 : ℝ) ^ 50 = 1125899906842624 := by norm_num
    nlinarith

/-! ## The cooling formula: the amended contracts -/

/-- C1, amended: on JavaScript numbers, for every `t0`, every double `tenv` with
a finite difference `t0 - tenv`, every finite `k > 0` and every `t >= 0`, and for
a `Math.exp` whose values on arguments at most `0` lie in `[0, 1]`, the result
`calculateTemperatureAtTime(t0, tenv, k, t)` lies between `tenv` and the result
at `t = 0` inclusive: `tenv <= T(t) <= T(0)` when `tenv <= t0` and
`T(0) <= T(t) <= tenv` when `t0 <= tenv`, where `T(0)` is `tenv + (t0 - tenv) * 1`
as computed in doubles. In exact real arithmetic, for every `t0`, `tenv`, `k > 0`
and `t ≥ 0`, `min(t0, tenv) ≤ result ≤ max(t0, tenv)`. -/
theorem calculateTemperatureAtTime_between :
    (∀ (approx : F64 → F64) (t0 tenv k t : F64),
      (∀ x, le x zero = true → le zero (approx x) = true ∧ le (approx x) one = true) →
      isDouble tenv = true → isFinite (t0 - tenv) = true →
      lt zero k = true → isFinite k = true → le zero t = true →
      calculateTemperatureAtTime (F64.exp approx) t0 tenv k zero = tenv + (t0 - tenv) * one
      ∧ (le tenv t0 = true →
          le tenv (calculateTemperatureAtTime (F64.exp approx) t0 tenv k t) = true
          ∧ le (calculateTemperatureAtTime (F64.exp approx) t0 tenv k t)
              (calculateTemperatureAtTime (F64.exp approx) t0 tenv k zero) = true)
      ∧ (le t0 tenv = true →
          le (calculateTemperatureAtTime (F64.exp approx) t0 tenv k zero)
              (calculateTemperatureAtTime (F64.exp approx) t0 tenv k t) = true
          ∧ le (calculateTemperatureAtTime (F64.exp approx) t0 tenv k t) tenv = true))
    ∧ (∀ t0 tenv k t : ℝ, 0 < k → 0 ≤ t →
        min t0 tenv ≤ calculateTemperatureAtTime Real.exp t0 tenv k t
        ∧ calculateTemperatureAtTime Real.exp t0 tenv k t ≤ max t0 tenv) := by
  refine ⟨?_, fun t0 tenv k t hk ht => calculateTemperatureAtTime_real_between t0 tenv k t hk ht⟩
  intro approx t0 tenv k t hrange htenv hd hk hkf ht
  have hz : calculateTemperatureAtTime (F64.exp approx) t0 tenv k zero
      = tenv + (t0 - tenv) * one := by
    unfold calculateTemperatureAtTime
    rw [F64.exp_neg_mul_zero approx k hkf]
  exact ⟨hz, calculateTemperatureAtTime_bounded approx hrange t0 tenv k t htenv hd hk hkf ht⟩

/-- Witness of the amended C1 at the sample values `t0 = 100`, `tenv = 20`,
`k = 0.05`, `t = 30` with the sample `Math.exp`: the script returns `40`, which
lies between `tenv = 20` and the value `100` it returns at `t = 0`. -/
theorem calculateTemperatureAtTime_between_witness :
    (∀ x, le x zero = true → le zero (sampleApprox x) = true ∧ le (sampleApprox x) one = true)
    ∧ isDouble (ofNat 20) = true
    ∧ isFinite (ofNat 100 - ofNat 20) = true
    ∧ lt zero (ofRatio false 5 100) = true
    ∧ isFinite (ofRatio false 5 100) = true
    ∧ le zero (ofNat 30) = true
    ∧ le (ofNat 20) (ofNat 100) = true
    ∧ (le (ofNat 20) (calculateTemperatureAtTime (F64.exp sampleApprox) (ofNat 100) (ofNat 20)
          (ofRatio false 5 100) (ofNat 30)) = true
      ∧ le (calculateTemperatureAtTime (F64.exp sampleApprox) (ofNat 100) (ofNat 20)
          (ofRatio false 5 100) (ofNat 30))
          (calculateTemperatureAtTime (F64.exp sampleApprox) (ofNat 100) (ofNat 20)
          (ofRatio false 5 100) zero) = true)
    ∧ calculateTemperatureAtTime (F64.exp sampleApprox) (ofNat 100) (ofNat 20)
          (ofRatio false 5 100) (ofNat 30) = ofNat 40
    ∧ calculateTemperatureAtTime (F64.exp sampleApprox) (ofNat 100) (ofNat 20)
          (ofRatio false 5 100) zero = ofNat 100 :=
  ⟨fun x _ => sampleApprox_range x, by decide, by decide, by decide, by decide, by decide,
    by decide,
    ((calculateTemperatureAtTime_between).1 sampleApprox (ofNat 100) (ofNat 20)
      (ofRatio false 5 100) (ofNat 30) (fun x _ => sampleApprox_range x) (by decide)
      (by decide) (by decide) (by decide) (by decide)).2.1 (by decide),
    by decide, by decide⟩

/-- C3, amended: on JavaScript numbers, for every `t0`, every double `tenv` with
a finite difference `t0 - tenv`, every finite `k > 0` and every `0 <= t1 <= t2`,
and for a `Math.exp` that on arguments at most `0` is monotone with values in
`[0, 1]`, the results `T(t) = calculateTemperatureAtTime(t0, tenv, k, t)` satisfy
`|T(t2) - tenv| <= |T(t1) - tenv|`; when `tenv <= t0`, `T(t2) <= T(t1)` and
`tenv <= T(t2)`; when `t0 <= tenv`, `T(t1) <= T(t2)` and `T(t2) <= tenv`. The same
holds in exact real arithmetic for every `t0`, `tenv`, `k > 0` and
`0 ≤ t1 ≤ t2`. -/
theorem calculateTemperatureAtTime_monotone :
    (∀ (approx : F64 → F64) (t0 tenv k t1 t2 : F64),
      (∀ x, le x zero = true → le zero (approx x) = true ∧ le (approx x) one = true) →
      (∀ x y, le x y = true → le y zero = true → le (approx x) (approx y) = true) →
      isDouble tenv = true → isFinite (t0 - tenv) = true →
      lt zero k = true → isFinite k = true → le zero t1 = true → le t1 t2 = true →
      le (F64.abs (calculateTemperatureAtTime (F64.exp approx) t0 tenv k t2 - tenv))
          (F64.abs (calculateTemperatureAtTime (F64.exp approx) t0 tenv k t1 - tenv)) = true
      ∧ (le tenv t0 = true →
          le (calculateTemperatureAtTime (F64.exp approx) t0 tenv k t2)
              (calculateTemperatureAtTime (F64.exp approx) t0 tenv k t1) = true
          ∧ le tenv (calculateTemperatureAtTime (F64.exp approx) t0 tenv k t2) = true)
      ∧ (le t0 tenv = true →
          le (calculateTemperatureAtTime (F64.exp approx) t0 tenv k t1)
              (calculateTemperatureAtTime (F64.exp approx) t0 tenv k t2) = true
          ∧ le (calculateTemperatureAtTime (F64.exp approx) t0 tenv k t2) tenv = true))
    ∧ (∀ t0 tenv k t1 t2 : ℝ, 0 < k → 0 ≤ t1 → t1 ≤ t2 →
        |calculateTemperatureAtTime Real.exp t0 tenv k t2 - tenv|
            ≤ |calculateTemperatureAtTime Real.exp t0 tenv k t1 - tenv|
        ∧ (tenv ≤ t0 →
            calculateTemperatureAtTime Real.exp t0 tenv k t2
                ≤ calculateTemperatureAtTime Real.exp t0 tenv k t1
              ∧ tenv ≤ calculateTemperatureAtTime Real.exp t0 tenv k t2)
        ∧ (t0 ≤ tenv →
            calculateTemperatureAtTime Real.exp t0 tenv k t1
                ≤ calculateTemperatureAtTime Real.exp t0 tenv k t2
              ∧ calculateTemperatureAtTime Real.exp t0 tenv k t2 ≤ tenv)) :=
  ⟨fun approx t0 tenv k t1 t2 hrange hmono htenv hd hk hkf ht1 h12 =>
      calculateTemperatureAtTime_decay approx hrange hmono t0 tenv k t1 t2 htenv hd hk hkf
        ht1 h12,
    fun t0 tenv k t1 t2 hk h1 h12 =>
      calculateTemperatureAtTime_real_monotone t0 tenv k t1 t2 hk h1 h12⟩

/-- Witness of the amended C3 at the sample values `t0 = 100`, `tenv = 20`,
`k = 0.05`, `t1 = 10`, `t2 = 30` with the sample `Math.exp`: the script returns
`60` at `t1` and `40` at `t2`. -/
theorem calculateTemperatureAtTime_monotone_witness :
    (∀ x, le x zero = true → le zero (sampleApprox x) = true ∧ le (sampleApprox x) one = true)
    ∧ (∀ x y, le x y = true → le y zero = true →
        le (sampleApprox x) (sampleApprox y) = true)
    ∧ isDouble (ofNat 20) = true
    ∧ isFinite (ofNat 100 - ofNat 20) = true
    ∧ lt zero (ofRatio false 5 100) = true
    ∧ isFinite (ofRatio false 5 100) = true
    ∧ le zero (ofNat 10) = true
    ∧ le (ofNat 10) (ofNat 30) = true
    ∧ le (ofNat 20) (ofNat 100) = true
    ∧ le (F64.abs (calculateTemperatureAtTime (F64.exp sampleApprox) (ofNat 100) (ofNat 20)
            (ofRatio false 5 100) (ofNat 30) - ofNat 20))
          (F64.abs (calculateTemperatureAtTime (F64.exp sampleApprox) (ofNat 100) (ofNat 20)
            (ofRatio false 5 100) (ofNat 10) - ofNat 20)) = true
    ∧ (le (calculateTemperatureAtTime (F64.exp sampleApprox) (ofNat 100) (ofNat 20)
            (ofRatio false 5 100) (ofNat 30))
          (calculateTemperatureAtTime (F64.exp sampleApprox) (ofNat 100) (ofNat 20)
            (ofRatio false 5 100) (ofNat 10)) = true
      ∧ le (ofNat 20) (calculateTemperatureAtTime (F64.exp sampleApprox) (ofNat 100) (ofNat 20)
            (ofRatio false 5 100) (ofNat 30)) = true)
    ∧ calculateTemperatureAtTime (F64.exp sampleApprox) (ofNat 100) (ofNat 20)
          (ofRatio false 5 100) (ofNat 10) = ofNat 60
    ∧ calculateTemperatureAtTime (F64.exp sampleApprox) (ofNat 100) (ofNat 20)
          (ofRatio false 5 100) (ofNat 30) = ofNat 40 :=
  ⟨fun x _ => sampleApprox_range x, fun x y h _ => sampleApprox_mono x y h,
    by decide, by decide, by decide, by decide, by decide, by decide, by decide,
    ((calculateTemperatureAtTime_monotone).1 sampleApprox (ofNat 100) (ofNat 20)
      (ofRatio false 5 100) (ofNat 10) (ofNat 30) (fun x _ => sampleApprox_range x)
      (fun x y h _ => sampleApprox_mono x y h) (by decide) (by decide) (by decide)
      (by decide) (by decide) (by decide)).1,
    ((calculateTemperatureAtTime_monotone).1 sampleApprox (ofNat 100) (ofNat 20)
      (ofRatio false 5 100) (ofNat 10) (ofNat 30) (fun x _ => sampleApprox_range x)
      (fun x y h _ => sampleApprox_mono x y h) (by decide) (by decide) (by decide)
      (by decide) (by decide) (by decide)).2.1 (by decide),
    by decide, by decide⟩

/-- C4, amended: on JavaScript numbers, for every `t0`, every double `tenv` with
a finite difference `t0 - tenv` and every `k > 0`, the result at `t = Infinity`
has distance `0` to `tenv`, so for every `eps > 0` there is a time `N`, namely
`Infinity`, with `|T(t) - tenv| < eps` for every `t >= N`, whatever `Math.exp`
does away from its fixed points; for finite `k` and a `Math.exp` that on
arguments at most `0` is monotone with values in `[0, 1]`, once
`|T(t1) - tenv| < eps` at a time `t1 >= 0` the same holds at every `t2 >= t1`;
and for `t0 = 100`, `tenv = 20`, `k = 0.05`, `t = 1000` the argument of
`Math.exp` is exactly `-50` and, when `0 <= Math.exp(-50) <= 1e-9`, the result is
within `1e-6` of `20`. In exact real arithmetic, for every `t0`, `tenv` and
`k > 0` the temperature tends to `tenv`, and at the sample values it is within
`1e-6` of `20`. -/
theorem calculateTemperatureAtTime_limit :
    (∀ (approx : F64 → F64) (t0 tenv k : F64),
      isDouble tenv = true → isFinite (t0 - tenv) = true → lt zero k = true →
      F64.abs (calculateTemperatureAtTime (F64.exp approx) t0 tenv k (inf false) - tenv) = zero
      ∧ ∀ eps : F64, lt zero eps = true →
          ∃ N : F64, isNaN N = false ∧ ∀ t : F64, le N t = true →
            lt (F64.abs (calculateTemperatureAtTime (F64.exp approx) t0 tenv k t - tenv)) eps
              = true)
    ∧ (∀ (approx : F64 → F64) (t0 tenv k t1 t2 eps : F64),
      (∀ x, le x zero = true → le zero (approx x) = true ∧ le (approx x) one = true) →
      (∀ x y, le x y = true → le y zero = true → le (approx x) (approx y) = true) →
      isDouble tenv = true → isFinite (t0 - tenv) = true →
      lt zero k = true → isFinite k = true → le zero t1 = true → le t1 t2 = true →
      lt (F64.abs (calculateTemperatureAtTime (F64.exp approx) t0 tenv k t1 - tenv)) eps = true →
      lt (F64.abs (calculateTemperatureAtTime (F64.exp approx) t0 tenv k t2 - tenv)) eps = true)
    ∧ (-(ofRatio false 5 100) * ofNat 1000 = -(ofNat 50)
      ∧ ∀ approx : F64 → F64,
        le zero (approx (-(ofNat 50))) = true →
        le (approx (-(ofNat 50))) (ofRatio false 1 (10 ^ 9)) = true →
        lt (F64.abs (calculateTemperatureAtTime (F64.exp approx) (ofNat 100) (ofNat 20)
          (ofRatio false 5 100) (ofNat 1000) - ofNat 20)) (ofRatio false 1 (10 ^ 6)) = true)
    ∧ (∀ t0 tenv k : ℝ, 0 < k → ∀ eps : ℝ, 0 < eps →
        ∃ N : ℝ, ∀ t : ℝ, N ≤ t →
          |calculateTemperatureAtTime Real.exp t0 tenv k t - tenv| < eps)
    ∧ |calculateTemperatureAtTime Real.exp (100 : ℝ) 20 (5 / 100) 1000 - 20| < 1 / 10 ^ 6 := by
  refine ⟨?_, ?_, ⟨by decide, ?_⟩, calculateTemperatureAtTime_real_limit.1,
    calculateTemperatureAtTime_real_limit.2⟩
  · intro approx t0 tenv k htenv hd hk
    have h0 := calculateTemperatureAtTime_at_inf approx t0 tenv k htenv hd hk
    refine ⟨h0, fun eps heps => ⟨inf false, rfl, fun t ht => ?_⟩⟩
    have ht2 : t = inf false := by
      cases t with
      | nan => simp [le] at ht
      | inf s => cases s <;> simp [le] at ht ⊢
      | fin s m e => simp [le] at ht
    rw [ht2, h0]
    exact heps
  · intro approx t0 tenv k t1 t2 eps hrange hmono htenv hd hk hkf ht1 h12 h
    exact F64.lt_chain _ _ _
      (calculateTemperatureAtTime_decay approx hrange hmono t0 tenv k t1 t2 htenv hd hk hkf
        ht1 h12).1 h
  · intro approx h0 h1
    have harg : -(ofRatio false 5 100) * ofNat 1000 = -(ofNat 50) := by decide
    have hexp : F64.exp approx (-(ofNat 50)) = approx (-(ofNat 50)) := rfl
    have hT : calculateTemperatureAtTime (F64.exp approx) (ofNat 100) (ofNat 20)
        (ofRatio false 5 100) (ofNat 1000)
        = ofNat 20 + (ofNat 100 - ofNat 20) * approx (-(ofNat 50)) := by
      unfold calculateTemperatureAtTime
      rw [harg, hexp]
    rw [hT]
    have hcore := (cooling_core (ofNat 20) (ofNat 100 - ofNat 20) (ofRatio false 1 (10 ^ 9))
      (approx (-(ofNat 50))) (by decide) (by decide) h0 h1 (by decide)).2.2
    exact F64.lt_chain _ _ _ hcore (by decide)

/-- Witness of the amended C4 at the sample values `t0 = 100`, `tenv = 20`,
`k = 0.05`: at `t = Infinity` the distance to `tenv` is `0`; with the sample
`Math.exp` the distance is below `50` at `t = 10` and so at `t = 30`; and at
`t = 1000` with `Math.exp(-50) = 1.9287498479639178e-22` the script returns `20`. -/
theorem calculateTemperatureAtTime_limit_witness :
    isDouble (ofNat 20) = true
    ∧ isFinite (ofNat 100 - ofNat 20) = true
    ∧ lt zero (ofRatio false 5 100) = true
    ∧ F64.abs (calculateTemperatureAtTime (F64.exp sampleApprox) (ofNat 100) (ofNat 20)
        (ofRatio false 5 100) (inf false) - ofNat 20) = zero
    ∧ isFinite (ofRatio false 5 100) = true
    ∧ le zero (ofNat 10) = true
    ∧ le (ofNat 10) (ofNat 30) = true
    ∧ lt (F64.abs (calculateTemperatureAtTime (F64.exp sampleApprox) (ofNat 100) (ofNat 20)
        (ofRatio false 5 100) (ofNat 10) - ofNat 20)) (ofNat 50) = true
    ∧ lt (F64.abs (calculateTemperatureAtTime (F64.exp sampleApprox) (ofNat 100) (ofNat 20)
        (ofRatio false 5 100) (ofNat 30) - ofNat 20)) (ofNat 50) = true
    ∧ le zero (ofRatio false 19287498479639178 (10 ^ 38)) = true
    ∧ le (ofRatio false 19287498479639178 (10 ^ 38)) (ofRatio false 1 (10 ^ 9)) = true
    ∧ lt (F64.abs (calculateTemperatureAtTime
          (F64.exp (fun _ => ofRatio false 19287498479639178 (10 ^ 38))) (ofNat 100) (ofNat 20)
          (ofRatio false 5 100) (ofNat 1000) - ofNat 20)) (ofRatio false 1 (10 ^ 6)) = true
    ∧ calculateTemperatureAtTime
          (F64.exp (fun _ => ofRatio false 19287498479639178 (10 ^ 38))) (ofNat 100) (ofNat 20)
          (ofRatio false 5 100) (ofNat 1000) = ofNat 20 :=
  ⟨by decide, by decide, by decide,
    ((calculateTemperatureAtTime_limit).1 sampleApprox (ofNat 100) (ofNat 20)
      (ofRatio false 5 100) (by decide) (by decide) (by decide)).1,
    by decide, by decide, by decide, by decide,
    (calculateTemperatureAtTime_limit).2.1 sampleApprox (ofNat 100) (ofNat 20)
      (ofRatio false 5 100) (ofNat 10) (ofNat 30) (ofNat 50)
      (fun x _ => sampleApprox_range x) (fun x y h _ => sampleApprox_mono x y h)
      (by decide) (by decide) (by decide) (by decide) (by decide) (by decide) (by decide),
    by decide, by decide,
    (calculateTemperatureAtTime_limit).2.2.1.2
      (fun _ => ofRatio false 19287498479639178 (10 ^ 38)) (by decide) (by decide),
    by decide⟩

/-! ## Plot sampling: the loop -/

/-- Once the horizon and the step are both `Infinity` and the loop variable is
`Infinity`, the sampling loop never leaves: no amount of fuel ends it. -/
theorem samplingLoop_inf (approx : F64 → F64) (t0 tenv k : F64) (fuel : Nat) :
    ∀ acc : List SamplePoint,
      samplingLoop approx t0 tenv k (inf false) (inf false) fuel (inf false) acc = none := by
  induction fuel with
  | zero => intro acc; rfl
  | succ n ih =>
    intro acc
    have hle : le (inf false) (inf false) = true := rfl
    have hadd : (inf false : F64) + inf false = inf false := rfl
    simp only [samplingLoop, hle, if_true, hadd]
    exact ih _

/-- When `t * 2` overflows to `Infinity`, the sampling loop of `generatePlot`
does not terminate. -/
theorem generatePlotPoints_diverges (approx : F64 → F64) (v : Values)
    (h : v.t * ofNat 2 = inf false) (fuel : Nat) :
    generatePlotPoints approx fuel v = none := by
  have hmax : plotMaxTime v.t = inf false := by
    unfold plotMaxTime
    rw [h]
    decide
  have hstep : plotTimeStep v.t = inf false := by
    unfold plotTimeStep
    rw [hmax]
    decide
  unfold generatePlotPoints
  rw [hmax, hstep]
  cases fuel with
  | zero => rfl
  | succ n =>
    have hle : le zero (inf false) = true := rfl
    have hadd : (zero : F64) + inf false = inf false := rfl
    simp only [samplingLoop, hle, if_true, hadd]
    exact samplingLoop_inf approx v.t0 v.tenv v.k n _

/-- C8, the failing input: `t0 = 100`, `tenv = 20`, `k = 0.05`, `t = 1e308` is
accepted by `getInputValues` (no error), `t * 2` is `Infinity`, and the sampling
loop of `generatePlot` yields no sequence however many iterations it is given. -/
theorem generatePlot_diverges_at_1e308 :
    (getInputValues (ofNat 100) (ofNat 20) (ofRatio false 5 100) (ofNat (10 ^ 308))).errors = []
    ∧ isFinite (ofNat (10 ^ 308)) = true
    ∧ plotMaxTime (ofNat (10 ^ 308)) = inf false
    ∧ plotTimeStep (ofNat (10 ^ 308)) = inf false
    ∧ ∀ (approx : F64 → F64) (fuel : Nat),
        generatePlot approx fuel (ofNat 100) (ofNat 20) (ofRatio false 5 100) (ofNat (10 ^ 308))
          = none := by
  have herr : (getInputValues (ofNat 100) (ofNat 20) (ofRatio false 5 100)
      (ofNat (10 ^ 308))).errors = [] := by decide
  refine ⟨herr, by decide, by decide, by decide, ?_⟩
  intro approx fuel
  have hlen : ¬ (getInputValues (ofNat 100) (ofNat 20) (ofRatio false 5 100)
      (ofNat (10 ^ 308))).errors.length > 0 := by
    rw [herr]; simp
  have hpts := generatePlotPoints_diverges approx
    (getInputValues (ofNat 100) (ofNat 20) (ofRatio false 5 100) (ofNat (10 ^ 308))).values
    (by decide) fuel
  simp only [generatePlot, hlen, if_false, hpts]

/-- The sampling loop is the loop on `time` alone, with the temperature computed
at each visited time. -/
theorem samplingLoop_eq_sampleTimes (approx : F64 → F64) (t0 tenv k maxTime timeStep : F64)
    (fuel : Nat) :
    ∀ (time : F64) (acc : List F64),
      samplingLoop approx t0 tenv k maxTime timeStep fuel time
          (acc.map (samplePointAt approx t0 tenv k))
        = (sampleTimes maxTime timeStep fuel time acc).map
            (List.map (samplePointAt approx t0 tenv k)) := by
  induction fuel with
  | zero => intro time acc; rfl
  | succ n ih =>
    intro time acc
    simp only [samplingLoop, sampleTimes]
    split_ifs with hc
    · have := ih (time + timeStep) (acc ++ [time])
      rw [List.map_append] at this
      exact this
    · rfl

/-- The data points of `generatePlot` are the visited times with their temperatures. -/
theorem generatePlotPoints_eq_sampleTimes (approx : F64 → F64) (fuel : Nat) (v : Values) :
    generatePlotPoints approx fuel v
      = (sampleTimes (plotMaxTime v.t) (plotTimeStep v.t) fuel zero []).map
          (List.map (samplePointAt approx v.t0 v.tenv v.k)) :=
  samplingLoop_eq_sampleTimes approx v.t0 v.tenv v.k _ _ fuel zero []

/-- More fuel does not change the result of a loop on `time` that ended. -/
theorem sampleTimes_fuel_mono (maxTime timeStep : F64) (fuel extra : Nat) :
    ∀ (time : F64) (acc r : List F64),
      sampleTimes maxTime timeStep fuel time acc = some r →
      sampleTimes maxTime timeStep (fuel + extra) time acc = some r := by
  induction fuel with
  | zero => intro time acc r h; simp [sampleTimes] at h
  | succ n ih =>
    intro time acc r h
    rw [Nat.succ_add]
    simp only [sampleTimes] at h ⊢
    split_ifs at h ⊢ with hc
    · exact ih _ _ _ h
    · exact h

set_option maxHeartbeats 4000000 in
/-- For `t = 60` the loop variable takes 100 values, the last one
`118.8000000000002`, and the loop then stops at `120.0000000000002 > 120`. -/
theorem sampleTimes_sixty :
    ∃ times : List F64,
      sampleTimes (plotMaxTime (ofNat 60)) (plotTimeStep (ofNat 60)) 101 zero [] = some times
      ∧ times.length = 100
      ∧ times.getLast? = some (fin false 8359806808306497 (-46))
      ∧ times.head? = some zero := by
  have h : (sampleTimes (plotMaxTime (ofNat 60)) (plotTimeStep (ofNat 60)) 101 zero []).map
      (fun ts => (ts.length, ts.getLast?, ts.head?))
      = some (100, some (fin false 8359806808306497 (-46)), some zero) := by
    decide!
  cases hs : sampleTimes (plotMaxTime (ofNat 60)) (plotTimeStep (ofNat 60)) 101 zero [] with
  | none => rw [hs] at h; exact absurd h (by simp)
  | some times =>
    rw [hs] at h
    simp only [Option.map_some', Option.some.injEq, Prod.mk.injEq] at h
    exact ⟨times, rfl, h.1, h.2.1, h.2.2⟩

set_option maxHeartbeats 4000000 in
/-- With horizon `100` the step is `1` and the loop variable takes the 101
values `0, 1, ..., 100`. -/
theorem sampleTimes_hundred :
    sampleTimes (ofNat 100) (ofNat 100 / ofNat 100) 102 zero []
      = some ((List.range 101).map ofNat) := by
  decide!

set_option maxHeartbeats 4000000 in
/-- With step `1`, the product `i * timeStep` is the integer `i`, for `i ≤ 100`. -/
theorem ofNat_mul_step (i : Nat) (hi : i < 101) :
    ofNat i * (ofNat 100 / ofNat 100) = ofNat i := by
  have h : ∀ j, j < 101 → F64.mul (ofNat j) (F64.div (ofNat 100) (ofNat 100)) = ofNat j := by
    decide!
  exact h i hi

/-- C7, the failing input: `t0 = 100`, `tenv = 20`, `k = 0.05`, `t = 60` is
accepted by `getInputValues`, the horizon is `maxTime = 120`, the step is `1.2`
and the 101st sample of the claim, at `100 * timeStep`, is at `120`; yet the
sampling loop of `generatePlot` pushes 100 points, not 101: the first is
`(0, 100)`, the last is at `x = 118.8000000000002 < maxTime`, and the next value
of the loop variable, `120.0000000000002`, is above `maxTime`, so the point at
`maxTime` is never pushed, while the ambient line of the same chart runs to
`maxTime`. -/
theorem generatePlot_misses_endpoint :
    (getInputValues (ofNat 100) (ofNat 20) (ofRatio false 5 100) (ofNat 60)).errors = []
    ∧ plotMaxTime (ofNat 60) = ofNat 120
    ∧ plotTimeStep (ofNat 60) = ofRatio false 12 10
    ∧ ofNat 100 * plotTimeStep (ofNat 60) = ofNat 120
    ∧ (∀ (approx : F64 → F64) (extra : Nat), ∃ pts : List SamplePoint,
        generatePlotPoints approx (101 + extra)
          { t0 := ofNat 100, tenv := ofNat 20, k := ofRatio false 5 100, t := ofNat 60 }
          = some pts
        ∧ generatePlot approx (101 + extra) (ofNat 100) (ofNat 20) (ofRatio false 5 100)
            (ofNat 60)
          = some (PlotDisplay.chart pts
              { x := ofNat 60,
                y := calculateTemperatureAtTime (F64.exp approx) (ofNat 100) (ofNat 20)
                  (ofRatio false 5 100) (ofNat 60) }
              [{ x := zero, y := ofNat 20 }, { x := ofNat 120, y := ofNat 20 }])
        ∧ pts.length = 100
        ∧ pts.head? = some { x := zero, y := ofNat 100 }
        ∧ pts.getLast?.map SamplePoint.x = some (fin false 8359806808306497 (-46)))
    ∧ lt (fin false 8359806808306497 (-46)) (ofNat 120) = true
    ∧ fin false 8359806808306497 (-46) + plotTimeStep (ofNat 60)
        = fin false 8444249301319694 (-46)
    ∧ lt (ofNat 120) (fin false 8444249301319694 (-46)) = true := by
  have herr : (getInputValues (ofNat 100) (ofNat 20) (ofRatio false 5 100)
      (ofNat 60)).errors = [] := by decide
  refine ⟨herr, by decide, by decide, by decide, ?_, by decide, by decide, by decide⟩
  intro approx extra
  obtain ⟨times, hs, hlen, hlast, hhead⟩ := sampleTimes_sixty
  have hs2 := sampleTimes_fuel_mono _ _ 101 extra zero [] times hs
  have hpts : generatePlotPoints approx (101 + extra)
      { t0 := ofNat 100, tenv := ofNat 20, k := ofRatio false 5 100, t := ofNat 60 }
      = some (times.map (samplePointAt approx (ofNat 100) (ofNat 20) (ofRatio false 5 100))) := by
    rw [generatePlotPoints_eq_sampleTimes]
    show Option.map _ (sampleTimes (plotMaxTime (ofNat 60)) (plotTimeStep (ofNat 60))
      (101 + extra) zero []) = _
    rw [hs2]
    rfl
  have hlen0 : ¬ (getInputValues (ofNat 100) (ofNat 20) (ofRatio false 5 100)
      (ofNat 60)).errors.length > 0 := by
    rw [herr]; simp
  have hvals : (getInputValues (ofNat 100) (ofNat 20) (ofRatio false 5 100) (ofNat 60)).values
      = { t0 := ofNat 100, tenv := ofNat 20, k := ofRatio false 5 100, t := ofNat 60 } := rfl
  have hmax : plotMaxTime (ofNat 60) = ofNat 120 := by decide
  refine ⟨times.map (samplePointAt approx (ofNat 100) (ofNat 20) (ofRatio false 5 100)),
    hpts, ?_, ?_, ?_, ?_⟩
  · simp only [generatePlot, hlen0, if_false, hvals, hpts, hmax]
  · rw [List.length_map, hlen]
  · rw [List.head?_map, hhead]
    rfl
  · rw [List.getLast?_map, hlast]
    rfl

/-- For every parameter set with `t <= 50`, such as the sample `t = 30`, the
horizon `Math.max(100, t * 2)` is `100` and the sampling loop of `generatePlot`
produces exactly 101 points; the `i`-th (`i = 0..100`) has `x = i * maxTime / 100`,
which is the integer `i`, and `y = calculateTemperatureAtTime(t0, tenv, k, x)`;
the first point is at `x = 0` with `y = calculateTemperatureAtTime(t0, tenv, k, 0)`
and the last point is at `x = maxTime` with
`y = calculateTemperatureAtTime(t0, tenv, k, maxTime)`. -/
theorem generatePlotPoints_le_fifty (approx : F64 → F64) (t0 tenv k t : F64)
    (extra : Nat) (ht : le t (ofNat 50) = true) :
    plotMaxTime t = ofNat 100
    ∧ plotTimeStep t = ofNat 1
    ∧ ∃ pts : List SamplePoint,
      generatePlotPoints approx (102 + extra) { t0 := t0, tenv := tenv, k := k, t := t }
        = some pts
      ∧ pts.length = 101
      ∧ (∀ i : Nat, i < 101 →
          pts[i]? = some
            { x := ofNat i * plotTimeStep t,
              y := calculateTemperatureAtTime (F64.exp approx) t0 tenv k
                (ofNat i * plotTimeStep t) }
          ∧ ofNat i * plotTimeStep t = ofNat i)
      ∧ pts.head? = some
          { x := zero, y := calculateTemperatureAtTime (F64.exp approx) t0 tenv k zero }
      ∧ pts.getLast? = some
          { x := plotMaxTime t,
            y := calculateTemperatureAtTime (F64.exp approx) t0 tenv k (plotMaxTime t) } := by
  have h : plotMaxTime t = ofNat 100 := plotMaxTime_of_le_fifty t ht
  have hstep : plotTimeStep t = ofNat 100 / ofNat 100 := by
    unfold plotTimeStep
    rw [h]
  have hone : ofNat 100 / ofNat 100 = ofNat 1 := by decide
  have hs := sampleTimes_fuel_mono _ _ 102 extra zero [] _ sampleTimes_hundred
  refine ⟨h, by rw [hstep, hone],
    ((List.range 101).map ofNat).map (samplePointAt approx t0 tenv k), ?_, ?_, ?_, ?_, ?_⟩
  · rw [generatePlotPoints_eq_sampleTimes]
    show Option.map _ (sampleTimes (plotMaxTime t) (plotTimeStep t) (102 + extra) zero []) = _
    rw [hstep, h, hs]
    rfl
  · simp
  · intro i hi
    rw [hstep, ofNat_mul_step i hi]
    refine ⟨?_, rfl⟩
    rw [List.getElem?_map, List.getElem?_map, List.getElem?_range hi]
    rfl
  · rfl
  · rw [h, List.getLast?_map, List.getLast?_map]
    rfl

/-- The sample of the specification, `t0 = 100`, `tenv = 20`, `k = 0.05`,
`t = 30`: the horizon is `100`, the step is `1` and the loop gives 101 points, the
first at `0` and the last at `100`. -/
theorem generatePlotPoints_thirty :
    le (ofNat 30) (ofNat 50) = true
    ∧ plotMaxTime (ofNat 30) = ofNat 100
    ∧ plotTimeStep (ofNat 30) = ofNat 1
    ∧ ∃ pts : List SamplePoint,
      generatePlotPoints (fun x => x) (102 + 0)
          { t0 := ofNat 100, tenv := ofNat 20, k := ofRatio false 5 100, t := ofNat 30 }
        = some pts
      ∧ pts.length = 101
      ∧ (∀ i : Nat, i < 101 →
          pts[i]? = some
            { x := ofNat i * plotTimeStep (ofNat 30),
              y := calculateTemperatureAtTime (F64.exp (fun x => x)) (ofNat 100) (ofNat 20)
                (ofRatio false 5 100) (ofNat i * plotTimeStep (ofNat 30)) }
          ∧ ofNat i * plotTimeStep (ofNat 30) = ofNat i)
      ∧ pts.head? = some
          { x := zero,
            y := calculateTemperatureAtTime (F64.exp (fun x => x)) (ofNat 100) (ofNat 20)
              (ofRatio false 5 100) zero }
      ∧ pts.getLast? = some
          { x := plotMaxTime (ofNat 30),
            y := calculateTemperatureAtTime (F64.exp (fun x => x)) (ofNat 100) (ofNat 20)
              (ofRatio false 5 100) (plotMaxTime (ofNat 30)) } :=
  ⟨by decide,
    generatePlotPoints_le_fifty (fun x => x) (ofNat 100) (ofNat 20)
      (ofRatio false 5 100) (ofNat 30) 0 (by decide)⟩

end CoolingModel
